import Mathlib

/-!
# Verification of the batched DLA simulation engine

Shallow embedding of the DLA (diffusion-limited aggregation) simulation and
the box-counting fractal-dimension estimator from
`src/apps/bacterial_dla_app.py`, together with theorems settling the frozen
claims about the specification.

Modelling conventions:

* Machine integers (`numpy.int32` walker coordinates) are modelled as `ℤ`;
  every quantity occurring in a run is bounded far below `2^31`
  (positions are bounded by the kill radius plus one move, and the grid side
  never exceeds a few hundred cells), so wrap-around is unreachable and is
  not modelled.
* `numpy` float draws are modelled as exact rationals.  The source draws a
  uniform angle `θ` and immediately takes `cos θ`/`sin θ`; the embedding
  draws the pair `(cos θ, sin θ)` directly as a rational pair, so theorems
  about spawning quantify over streams of unit-circle points.
* The source takes all randomness from the ambient process-global
  `np.random` generator.  Faithfully to that, the random state `Rng` is a
  piece of *world* state passed alongside (never inside) the simulation
  object: three value streams together with a shared set of cursors that
  every construction and every `step` call advances.  A fresh cursor
  position is consumed exactly where the source performs a draw
  (`np.random.randint(0,4,batch)` once per micro-step,
  `np.random.random(batch)` once per non-early-exited micro-step,
  one `np.random.uniform` angle per spawned or respawned walker).
* `.astype(np.int32)` truncates toward zero: this is `truncQ`.
  `int(np.sqrt n)` for a nonnegative integer `n` is `Nat.sqrt n`.
-/

unseal Rat.add Rat.mul Rat.sub Rat.inv

set_option maxRecDepth 1000000

namespace DLA

/-- Executable floor square root (structurally computable, so concrete runs
reduce inside the kernel); `intSqrt n = Nat.sqrt n` is proved below.  This
is the value of `int(np.sqrt(n))` for a nonnegative integer `n`: the float
square root truncated toward zero, i.e. the floor of the square root. -/
def intSqrt (n : ℕ) : ℕ :=
  ((Finset.range n).filter (fun k => (k + 1) * (k + 1) ≤ n)).card

/-- One walker of the batch: integer position and activity flag
(`walker_x`, `walker_y`, `active` columns of the source's parallel arrays). -/
structure Walker where
  x : ℤ
  y : ℤ
  active : Bool
deriving DecidableEq, Repr

/-- The ambient global random state (`np.random`).  `angles` yields the
`(cos θ, sin θ)` pair of the n-th uniform angle draw, `moves` the n-th
`randint(0,4)` draw, `sticks` the n-th `random()` draw in `[0,1)`;
the cursors record how much of each stream has been consumed. -/
structure Rng where
  angles : ℕ → ℚ × ℚ
  moves : ℕ → Fin 4
  sticks : ℕ → ℚ
  aPos : ℕ
  mPos : ℕ
  sPos : ℕ

/-- The simulation state: occupancy grid, geometric bookkeeping and the
walker batch (`DLASimulation.__init__` fields).  The grid is total on `ℤ²`;
the source only ever writes inside `[0, grid_size)²` (proved below). -/
structure Sim where
  grid_size : ℕ
  batch_size : ℕ
  grid : ℤ → ℤ → Bool
  center : ℤ
  particles_added : ℕ
  max_radius : ℕ
  walkers : List Walker

/-- Truncation toward zero, the semantics of `.astype(np.int32)` on the
(non-overflowing) float values of this program. -/
def truncQ (q : ℚ) : ℤ := if 0 ≤ q then ⌊q⌋ else ⌈q⌉

/-- `np.clip v lo hi`. -/
def clip (v lo hi : ℤ) : ℤ := max lo (min v hi)

/-- The rows of `self.neighbors = [[0,1],[0,-1],[1,0],[-1,0]]`,
as `(dx, dy)` pairs (column 0 is `dx`, column 1 is `dy`). -/
def neighborOffsets : Fin 4 → ℤ × ℤ
  | 0 => (0, 1)
  | 1 => (0, -1)
  | 2 => (1, 0)
  | 3 => (-1, 0)

/-- Map with an absolute running index, used to attach the k-th random draw
of a batch-wide vectorized draw to the k-th walker. -/
def mapIdxFrom (f : ℕ → Walker → Walker) : ℕ → List Walker → List Walker
  | _, [] => []
  | k, w :: ws => f k w :: mapIdxFrom f (k + 1) ws

/-- Position of a spawned walker:
`(center + birth_r*cosθ, center + birth_r*sinθ).astype(np.int32)`. -/
def spawnPos (center : ℤ) (birthR : ℚ) (a : ℚ × ℚ) : ℤ × ℤ :=
  (truncQ ((center : ℚ) + birthR * a.1), truncQ ((center : ℚ) + birthR * a.2))

/-- `DLASimulation._spawn_walkers`: respawn the whole batch on the circle of
radius `max_radius + 5` around the center, all active; consumes
`batch_size` angle draws. -/
def spawnWalkers (s : Sim) (rng : Rng) : Sim × Rng :=
  let birthR : ℚ := (s.max_radius : ℚ) + 5
  let ws := (List.range s.batch_size).map (fun k =>
    let p := spawnPos s.center birthR (rng.angles (rng.aPos + k))
    Walker.mk p.1 p.2 true)
  ({ s with walkers := ws }, { rng with aPos := rng.aPos + s.batch_size })

/-- The freshly zeroed grid with only the center seed occupied. -/
def initGrid (c : ℤ) : ℤ → ℤ → Bool :=
  fun x y => if x = c ∧ y = c then true else false

/-- `DLASimulation.__init__`: seed the center, set the counters, and spawn
the initial batch. -/
def initSim (grid_size batch_size : ℕ) (rng : Rng) : Sim × Rng :=
  let c : ℤ := ((grid_size / 2 : ℕ) : ℤ)
  spawnWalkers
    { grid_size := grid_size, batch_size := batch_size,
      grid := initGrid c, center := c,
      particles_added := 1, max_radius := 1, walkers := [] } rng

/-- Whether any walker of the batch is active (`np.any(self.active)`). -/
def anyActive (s : Sim) : Bool := s.walkers.any (·.active)

/-- Step 1 guard: if no walker is active, spawn a completely fresh batch. -/
def spawnGuard (s : Sim) (rng : Rng) : Sim × Rng :=
  if anyActive s then (s, rng) else spawnWalkers s rng

/-- Step 2: every active walker takes one unit step in the direction of its
`randint(0,4)` draw; `batch_size` draws are consumed unconditionally. -/
def movePhase (s : Sim) (rng : Rng) : Sim × Rng :=
  let ws := mapIdxFrom (fun k w =>
      let d := neighborOffsets (rng.moves (rng.mPos + k))
      if w.active then { w with x := w.x + d.1, y := w.y + d.2 } else w)
    0 s.walkers
  ({ s with walkers := ws }, { rng with mPos := rng.mPos + s.batch_size })

/-- Squared Euclidean distance of a walker from the center. -/
def distSq (c : ℤ) (w : Walker) : ℤ := (w.x - c) ^ 2 + (w.y - c) ^ 2

/-- The bounds predicate of step 4:
`x < 1 or x >= grid_size-1 or y < 1 or y >= grid_size-1`. -/
def outOfBoundsW (gs : ℕ) (w : Walker) : Bool :=
  decide (w.x < 1) || decide ((gs : ℤ) - 1 ≤ w.x) ||
  decide (w.y < 1) || decide ((gs : ℤ) - 1 ≤ w.y)

/-- Steps 3–4: deactivate walkers beyond the kill radius or within one cell
of the border (`self.active = self.active & ~escaped & ~out_of_bounds`). -/
def killPhase (s : Sim) (killRSq : ℤ) : Sim :=
  { s with walkers := s.walkers.map (fun w =>
      { w with active :=
          w.active && !decide (killRSq < distSq s.center w) &&
          !outOfBoundsW s.grid_size w }) }

/-- Step 6: the four axis-aligned neighbor probes with `np.clip` to the grid
range, exactly as in the source. -/
def hasNeighbor (g : ℤ → ℤ → Bool) (gs : ℕ) (w : Walker) : Bool :=
  (List.finRange 4).any (fun i =>
    let d := neighborOffsets i
    g (clip (w.x + d.1) 0 ((gs : ℤ) - 1)) (clip (w.y + d.2) 0 ((gs : ℤ) - 1)))

/-- The per-walker stick bits of step 7, attaching the draw at stream
position `n + k` to the k-th walker. -/
def stickRow (g : ℤ → ℤ → Bool) (gs : ℕ) (p : ℚ) (sticks : ℕ → ℚ) :
    ℕ → List Walker → List Bool
  | _, [] => []
  | n, w :: ws =>
    (w.active && hasNeighbor g gs w && decide (sticks n < p)) ::
      stickRow g gs p sticks (n + 1) ws

/-- Step 7: `will_stick = active & has_neighbor & (random(batch) < p)`;
consumes `batch_size` stick draws. -/
def stickMask (s : Sim) (rng : Rng) (p : ℚ) : List Bool × Rng :=
  (stickRow s.grid s.grid_size p rng.sticks rng.sPos s.walkers,
   { rng with sPos := rng.sPos + s.batch_size })

/-- Grid/counter state threaded through the sticking-commit loop. -/
structure GState where
  grid : ℤ → ℤ → Bool
  particles_added : ℕ
  max_radius : ℕ
  added : ℕ

/-- Point update of the occupancy grid (`self.grid[px, py] = 1`). -/
def setCell (g : ℤ → ℤ → Bool) (a b : ℤ) : ℤ → ℤ → Bool :=
  fun x y => if x = a ∧ y = b then true else g x y

/-- One iteration of the commit loop (source lines 100–106): occupancy is
checked before writing, so an already-occupied target is a no-op; a fresh
occupation bumps both counters and updates
`max_radius = max(max_radius, int(np.sqrt(dist²)) + 1)`. -/
def commitOne (c : ℤ) (st : GState) (pos : ℤ × ℤ) : GState :=
  if st.grid pos.1 pos.2 then st
  else
    { grid := setCell st.grid pos.1 pos.2,
      particles_added := st.particles_added + 1,
      max_radius :=
        max st.max_radius
          (intSqrt ((pos.1 - c) ^ 2 + (pos.2 - c) ^ 2).toNat + 1),
      added := st.added + 1 }

/-- The positions of the sticking walkers, in ascending index order
(`np.where(will_stick)[0]` iterates indices in ascending order). -/
def stickTargets (ws : List Walker) (mask : List Bool) : List (ℤ × ℤ) :=
  ((ws.zip mask).filter (fun wm => wm.2)).map (fun wm => (wm.1.x, wm.1.y))

/-- Step 8: fold the commit loop over the sticking walkers. -/
def commitPhase (s : Sim) (mask : List Bool) (added : ℕ) : Sim × ℕ :=
  let st := (stickTargets s.walkers mask).foldl (commitOne s.center)
    ⟨s.grid, s.particles_added, s.max_radius, added⟩
  ({ s with grid := st.grid, particles_added := st.particles_added,
            max_radius := st.max_radius }, st.added)

/-- `self.active = self.active & ~will_stick` (source line 109). -/
def deactivatePhase (ws : List Walker) (mask : List Bool) : List Walker :=
  (ws.zip mask).map (fun wm => { wm.1 with active := wm.1.active && !wm.2 })

/-- Respawn every inactive walker, in index order, consuming one angle draw
per inactive walker; active walkers are untouched. -/
def respawnList (angles : ℕ → ℚ × ℚ) (c : ℤ) (birthR : ℚ) :
    List Walker → ℕ → List Walker × ℕ
  | [], n => ([], n)
  | w :: ws, n =>
    if w.active then
      let r := respawnList angles c birthR ws n
      (w :: r.1, r.2)
    else
      let p := spawnPos c birthR (angles n)
      let r := respawnList angles c birthR ws (n + 1)
      (Walker.mk p.1 p.2 true :: r.1, r.2)

/-- Step 9 (source lines 111–119): respawn the inactive walkers on the
current spawn circle `max_radius + 5` and reactivate them. -/
def respawnPhase (s : Sim) (rng : Rng) : Sim × Rng :=
  let birthR : ℚ := (s.max_radius : ℚ) + 5
  let r := respawnList rng.angles s.center birthR s.walkers rng.aPos
  ({ s with walkers := r.1 }, { rng with aPos := r.2 })

/-- Steps 6–9, entered only when a walker survived steps 3–4: compute the
stick mask, commit, deactivate the stuck walkers and respawn every
inactive walker. -/
def resolvePhase (s : Sim) (rng : Rng) (p : ℚ) (added : ℕ) :
    Sim × Rng × ℕ :=
  let m := stickMask s rng p
  let ca := commitPhase s m.1 added
  let s4 := { ca.1 with walkers := deactivatePhase ca.1.walkers m.1 }
  let sr := respawnPhase s4 m.2
  (sr.1, sr.2, ca.2)

/-- One micro-step of `DLASimulation.step`'s inner loop.  The early exit
(`if not np.any(self.active): continue`, source lines 84–85) skips
steps 6–9 entirely, including the respawn. -/
def microStep (p : ℚ) (killRSq : ℤ) (s : Sim) (rng : Rng) (added : ℕ) :
    Sim × Rng × ℕ :=
  let g := spawnGuard s rng
  let mv := movePhase g.1 g.2
  let s2 := killPhase mv.1 killRSq
  if anyActive s2 then resolvePhase s2 mv.2 p added
  else (s2, mv.2, added)

/-- The `for _ in range(steps_per_call)` loop. -/
def stepLoop (p : ℚ) (killRSq : ℤ) : ℕ → Sim → Rng → ℕ → Sim × Rng × ℕ
  | 0, s, rng, added => (s, rng, added)
  | n + 1, s, rng, added =>
    let r := microStep p killRSq s rng added
    stepLoop p killRSq n r.1 r.2.1 r.2.2

/-- `DLASimulation.step(sticking_prob, steps_per_call)`: the kill radius is
computed once per call from the entry `max_radius`; returns the final
state, the advanced global random state and the newly-stuck count. -/
def step (s : Sim) (rng : Rng) (p : ℚ) (steps_per_call : ℕ) :
    Sim × Rng × ℕ :=
  stepLoop p (((s.max_radius : ℤ) + 50) ^ 2) steps_per_call s rng 0

/-- Drive the engine through a sequence of `step` calls, threading the
global random state. -/
def runCalls : Sim × Rng → List (ℚ × ℕ) → Sim × Rng
  | sr, [] => sr
  | sr, c :: rest =>
    let r := step sr.1 sr.2 c.1 c.2
    runCalls (r.1, r.2.1) rest

/-! ## The box-counting fractal-dimension estimator -/

/-- The `while size <= max_box_size: ...; size *= 2` loop of
`box_counting_dimension`.  The source diverges when called with
`size = 0 ≤ max_box_size`; the embedding returns `[]` there, and theorems
about the estimator assume `1 ≤ min_box_size` (the spec's stated domain, and
the only sizes the driver passes). -/
def boxSizesFrom (size maxB : ℕ) : List ℕ :=
  if h : 1 ≤ size ∧ size ≤ maxB then size :: boxSizesFrom (2 * size) maxB
  else []
termination_by maxB + 1 - size
decreasing_by omega

/-- The starts `range(0, side, box_size)` of the box tiling. -/
def boxStarts (side bs : ℕ) : List ℕ :=
  (List.range ((side + bs - 1) / bs)).map (· * bs)

/-- Whether the (possibly truncated) tile with corner `(i, j)` and side
`bs` contains an occupied cell (`box.sum() > 0`). -/
def boxOccupied (g : ℤ → ℤ → Bool) (side bs i j : ℕ) : Bool :=
  (List.range (min bs (side - i))).any (fun di =>
    (List.range (min bs (side - j))).any (fun dj =>
      g ((i : ℤ) + di) ((j : ℤ) + dj)))

/-- The number of tiles of side `bs` containing an occupied cell. -/
def boxCount (g : ℤ → ℤ → Bool) (side bs : ℕ) : ℕ :=
  ((boxStarts side bs).map (fun i =>
    ((boxStarts side bs).filter (fun j => boxOccupied g side bs i j)).length)).sum

/-- The slope produced by `np.polyfit(xs, ys, 1)`, i.e. the least-squares
slope in exact arithmetic (normal-equations solution). -/
noncomputable def polyfitSlope (l : List (ℝ × ℝ)) : ℝ :=
  let n : ℝ := l.length
  ((n * (l.map (fun q => q.1 * q.2)).sum -
      (l.map Prod.fst).sum * (l.map Prod.snd).sum)) /
    (n * (l.map (fun q => q.1 ^ 2)).sum - (l.map Prod.fst).sum ^ 2)

/-- The degenerate-input test of `box_counting_dimension`:
`len(counts) < 2 or np.any(counts == 0)`. -/
def bcdDegenerate (g : ℤ → ℤ → Bool) (side minB maxB : ℕ) : Prop :=
  (boxSizesFrom minB maxB).length < 2 ∨
    0 ∈ (boxSizesFrom minB maxB).map (boxCount g side)

instance (g : ℤ → ℤ → Bool) (side minB maxB : ℕ) :
    Decidable (bcdDegenerate g side minB maxB) := by
  unfold bcdDegenerate; infer_instance

/-- The `(log(1/s), log(count))` pairs fed to `np.polyfit`. -/
noncomputable def bcdLogPairs (g : ℤ → ℤ → Bool) (side minB maxB : ℕ) :
    List (ℝ × ℝ) :=
  (boxSizesFrom minB maxB).map (fun bs : ℕ =>
    (Real.log (1 / (bs : ℝ)), Real.log (boxCount g side bs)))

/-- `box_counting_dimension(binary_image, min_box_size, max_box_size)` for a
`side × side` snapshot; `none` for `max_box_size` selects the default
`min(binary_image.shape) // 8 = side // 8`. -/
noncomputable def box_counting_dimension (g : ℤ → ℤ → Bool) (side minB : ℕ)
    (maxB? : Option ℕ) : ℝ :=
  if bcdDegenerate g side minB (maxB?.getD (side / 8)) then 171 / 100
  else polyfitSlope (bcdLogPairs g side minB (maxB?.getD (side / 8)))

/-! ## Spec-side definitions used to state and refute claims

These follow the claims' wording, not the source, and are only compared
against the source-derived definitions above. -/

/-- The sum of squared residuals of the affine fit `y = a·x + b`,
the functional minimized by a least-squares line fit. -/
def sse (l : List (ℝ × ℝ)) (a b : ℝ) : ℝ :=
  (l.map (fun q => (q.2 - (a * q.1 + b)) ^ 2)).sum

/-- Claim-side rounding: the integer nearest to a rational
(the claims say coordinates are "rounded to the nearest integer"). -/
def roundQ (q : ℚ) : ℤ := round q

/-- A checked `occupy` as specified in §4.1: fails (returns `none`) when the
target is outside the grid, otherwise behaves like `commitOne`.  Used to
state that the `OutOfBounds` failure is unreachable from `step`. -/
def occupyChecked (gs : ℕ) (c : ℤ) (st : GState) (pos : ℤ × ℤ) :
    Option GState :=
  if 0 ≤ pos.1 ∧ pos.1 < (gs : ℤ) ∧ 0 ≤ pos.2 ∧ pos.2 < (gs : ℤ) then
    some (commitOne c st pos)
  else none

/-- The commit loop of step 8 run with the checked `occupy`. -/
def commitChecked (gs : ℕ) (c : ℤ) (st : GState) :
    List (ℤ × ℤ) → Option GState
  | [] => some st
  | pos :: rest => do
    let st1 ← occupyChecked gs c st pos
    commitChecked gs c st1 rest

/-- `commitPhase` with the checked `occupy`. -/
def commitPhaseChecked (s : Sim) (mask : List Bool) (added : ℕ) :
    Option (Sim × ℕ) := do
  let st ← commitChecked s.grid_size s.center
    ⟨s.grid, s.particles_added, s.max_radius, added⟩
    (stickTargets s.walkers mask)
  some ({ s with grid := st.grid, particles_added := st.particles_added,
                 max_radius := st.max_radius }, st.added)

/-- `resolvePhase` with the checked `occupy`. -/
def resolveChecked (s : Sim) (rng : Rng) (p : ℚ) (added : ℕ) :
    Option (Sim × Rng × ℕ) := do
  let m := stickMask s rng p
  let ca ← commitPhaseChecked s m.1 added
  let s4 := { ca.1 with walkers := deactivatePhase ca.1.walkers m.1 }
  let sr := respawnPhase s4 m.2
  some (sr.1, sr.2, ca.2)

/-- `microStep` with the checked `occupy`. -/
def microStepChecked (p : ℚ) (killRSq : ℤ) (s : Sim) (rng : Rng)
    (added : ℕ) : Option (Sim × Rng × ℕ) :=
  let g := spawnGuard s rng
  let mv := movePhase g.1 g.2
  let s2 := killPhase mv.1 killRSq
  if anyActive s2 then resolveChecked s2 mv.2 p added
  else some (s2, mv.2, added)

/-- The micro-step loop with the checked `occupy`. -/
def stepLoopChecked (p : ℚ) (killRSq : ℤ) :
    ℕ → Sim → Rng → ℕ → Option (Sim × Rng × ℕ)
  | 0, s, rng, added => some (s, rng, added)
  | n + 1, s, rng, added => do
    let r ← microStepChecked p killRSq s rng added
    stepLoopChecked p killRSq n r.1 r.2.1 r.2.2

/-- `step` with the checked `occupy`: returns `none` iff some commit during
the call would fail with `OutOfBounds`. -/
def stepChecked (s : Sim) (rng : Rng) (p : ℚ) (steps_per_call : ℕ) :
    Option (Sim × Rng × ℕ) :=
  stepLoopChecked p (((s.max_radius : ℤ) + 50) ^ 2) steps_per_call s rng 0

/-- The stick targets a micro-step starting from `(s, rng)` commits in
step 8: the positions of the walkers whose stick bit is set, computed from
the post-kill state exactly as `microStep` does. -/
def microTargets (s : Sim) (rng : Rng) (p : ℚ) (killRSq : ℤ) :
    List (ℤ × ℤ) :=
  let g := spawnGuard s rng
  let mv := movePhase g.1 g.2
  let s2 := killPhase mv.1 killRSq
  stickTargets s2.walkers (stickMask s2 mv.2 p).1

/-- The number of occupied cells of the `side × side` grid. -/
def gridCount (g : ℤ → ℤ → Bool) (gs : ℕ) : ℕ :=
  ∑ i ∈ Finset.range gs, ∑ j ∈ Finset.range gs,
    if g (i : ℤ) (j : ℤ) then 1 else 0

/-- The radius invariant: every occupied cell lies strictly inside the
circle of radius `max_radius` around the center. -/
def RadiusInv (s : Sim) : Prop :=
  ∀ x y : ℤ, s.grid x y = true →
    (x - s.center) ^ 2 + (y - s.center) ^ 2 < (s.max_radius : ℤ) ^ 2

/-- The radius invariant at the grid/counter level, for the commit fold. -/
def RadiusInvG (c : ℤ) (st : GState) : Prop :=
  ∀ x y : ℤ, st.grid x y = true →
    (x - c) ^ 2 + (y - c) ^ 2 < (st.max_radius : ℤ) ^ 2

/-! ## Concrete scenario inputs

Concrete global random streams and runs used by counterexamples and
witnesses.  Each stream fixes the three draw streams of `np.random` to
explicit values; the runs below were traced by hand and are evaluated
inside the kernel. -/

/-- Global stream for the C1 scenario: the first angle draw is `(1, 0)`,
all later ones `(0, 1)`; every move draw is direction 3 = `(-1, 0)`;
every stick draw is `0`. -/
def rngC1 : Rng :=
  ⟨fun n => if n = 0 then (1, 0) else (0, 1), fun _ => 3, fun _ => 0, 0, 0, 0⟩

/-- First simulation constructed from the shared global stream. -/
def c1SimA : Sim × Rng := initSim 15 1 rngC1

/-- Second simulation, constructed with identical parameters from the same
process: it consumes the *next* positions of the shared global stream. -/
def c1SimB : Sim × Rng := initSim 15 1 c1SimA.2

/-- The first simulation stepped once with `step(1.0, 6)`. -/
def c1RunA : Sim × Rng × ℕ := step c1SimA.1 c1SimB.2 1 6

/-- The second simulation stepped with the same call `step(1.0, 6)`. -/
def c1RunB : Sim × Rng × ℕ := step c1SimB.1 c1RunA.2.1 1 6

/-- Global stream for the C2 scenario: spawn at `(13, 7)` on a `15`-grid,
move draw 2 = `(+1, 0)` pushes the walker to `x = 14 ≥ side - 1`. -/
def rngC2 : Rng := ⟨fun _ => (1, 0), fun _ => 2, fun _ => 0, 0, 0, 0⟩

/-- One `step(1.0, 1)` call on the C2 scenario. -/
def c2Run : Sim × Rng × ℕ :=
  step (initSim 15 1 rngC2).1 (initSim 15 1 rngC2).2 1 1

/-- Global stream for the C2 witness scenario: the walker spawns at
`(16, 10)` on a `21`-grid and survives its first micro-step. -/
def rngC2W : Rng := ⟨fun _ => (1, 0), fun _ => 3, fun _ => 0, 0, 0, 0⟩

/-- Global stream for the C3 witness scenario. -/
def rngC3W : Rng := ⟨fun _ => (1, 0), fun _ => 3, fun _ => 0, 0, 0, 0⟩

/-- Post-kill micro-step state for the C3 witness: a `15`-grid with only
the center `(7,7)` occupied and two active walkers both at `(8,7)`, which
is adjacent to the seed, so both stick to the same empty cell in the same
micro-step. -/
def c3State : Sim :=
  ⟨15, 2, initGrid 7, 7, 1, 1, [⟨8, 7, true⟩, ⟨8, 7, true⟩]⟩

/-- Global stream for the C10 witness scenario. -/
def rngC10W : Rng := ⟨fun _ => (1, 0), fun _ => 3, fun _ => 0, 0, 0, 0⟩

/-- Global stream for the C4 witness scenario. -/
def rngC4W : Rng := ⟨fun _ => (1, 0), fun _ => 3, fun _ => 0, 0, 0, 0⟩

/-- Global stream for the C5 scenario: all angle draws `(1, 0)`, all move
draws 3 = `(-1, 0)`, all stick draws `0` (always stick on contact). -/
def rngC5 : Rng := ⟨fun _ => (1, 0), fun _ => 3, fun _ => 0, 0, 0, 0⟩

/-- 25 micro-steps of the C5 scenario on a `21`-grid with
`sticking_probability = 1`: five particles stick in a straight line and the
last respawn places the walker at `x = 21`, outside the grid. -/
def c5Run : Sim × Rng × ℕ :=
  step (initSim 21 1 rngC5).1 (initSim 21 1 rngC5).2 1 25

/-- State for the C5 amended-claim witness: one active walker far outside
the `21`-grid. -/
def c5WState : Sim := ⟨21, 1, initGrid 10, 10, 1, 1, [⟨30, 10, true⟩]⟩

/-- Global stream for the C5 amended-claim witness. -/
def rngC5W : Rng := ⟨fun _ => (1, 0), fun _ => 3, fun _ => 0, 0, 0, 0⟩

/-- Global stream for the C6 scenario: a hand-routed walk on a `21`-grid
that sticks particles at `(11,10)`, `(11,11)`, `(12,11)` and finally at
`(12,12)`, whose squared distance from the center `(10,10)` is `8`. -/
def rngC6 : Rng :=
  ⟨fun _ => (1, 0),
   fun n => if n = 10 ∨ n = 17 ∨ n = 23 ∨ n = 24 then 0 else 3,
   fun n => if n = 4 ∨ n = 11 ∨ n = 17 ∨ n = 25 then 0 else 1, 0, 0, 0⟩

/-- The C6 scenario after 25 micro-steps (just before the fourth stick). -/
def c6Run25 : Sim :=
  (step (initSim 21 1 rngC6).1 (initSim 21 1 rngC6).2 (1 / 2) 25).1

/-- The C6 scenario after 26 micro-steps (the fourth stick, at `(12,12)`,
has been committed). -/
def c6Run26 : Sim :=
  (step (initSim 21 1 rngC6).1 (initSim 21 1 rngC6).2 (1 / 2) 26).1

/-- Global stream for the C7 scenario: the first angle draw is the rational
unit vector `(3/5, 4/5)`, so the spawn position before integer conversion
is `(10 + 6·(3/5), 10 + 6·(4/5)) = (13.6, 14.8)`. -/
def rngC7 : Rng := ⟨fun _ => (3 / 5, 4 / 5), fun _ => 3, fun _ => 0, 0, 0, 0⟩

/-! ## Basic lemmas -/

/-- The executable floor square root agrees with `Nat.sqrt`. -/
theorem intSqrt_eq (n : ℕ) : intSqrt n = Nat.sqrt n := by
  unfold intSqrt
  have hcong : (Finset.range n).filter (fun k => (k + 1) * (k + 1) ≤ n) =
      (Finset.range n).filter (fun k => k < Nat.sqrt n) := by
    apply Finset.filter_congr
    intro k hk
    simp only [Finset.mem_range] at hk
    constructor
    · intro h
      by_contra hlt
      push_neg at hlt
      have h2 : (Nat.sqrt n + 1) ^ 2 ≤ (k + 1) ^ 2 :=
        Nat.pow_le_pow_left (by omega) 2
      have h3 := Nat.lt_succ_sqrt' n
      have h4 : (k + 1) ^ 2 = (k + 1) * (k + 1) := by ring
      have h5 : (Nat.sqrt n + 1) ^ 2 = (Nat.sqrt n + 1) * (Nat.sqrt n + 1) := by
        ring
      nlinarith
    · intro h
      have h2 : (k + 1) ^ 2 ≤ Nat.sqrt n ^ 2 := Nat.pow_le_pow_left (by omega) 2
      have h3 := Nat.sqrt_le' n
      have h4 : (k + 1) ^ 2 = (k + 1) * (k + 1) := by ring
      have h5 : Nat.sqrt n ^ 2 = Nat.sqrt n * Nat.sqrt n := by ring
      nlinarith
  rw [hcong]
  have hle : Nat.sqrt n ≤ n := Nat.sqrt_le_self n
  have hr : (Finset.range n).filter (fun k => k < Nat.sqrt n) =
      Finset.range (Nat.sqrt n) := by
    ext k
    simp only [Finset.mem_filter, Finset.mem_range]
    omega
  rw [hr, Finset.card_range]

/-! ### Walker-list lemmas -/

theorem mapIdxFrom_length (f : ℕ → Walker → Walker) (k : ℕ)
    (ws : List Walker) : (mapIdxFrom f k ws).length = ws.length := by
  induction ws generalizing k with
  | nil => rfl
  | cons w ws ih => simp [mapIdxFrom, ih]

theorem respawnList_length (a : ℕ → ℚ × ℚ) (c : ℤ) (r : ℚ)
    (ws : List Walker) (n : ℕ) :
    (respawnList a c r ws n).1.length = ws.length := by
  induction ws generalizing n with
  | nil => rfl
  | cons w ws ih => by_cases h : w.active <;> simp [respawnList, h, ih]

theorem respawnList_active (a : ℕ → ℚ × ℚ) (c : ℤ) (r : ℚ)
    (ws : List Walker) (n : ℕ) :
    ∀ w ∈ (respawnList a c r ws n).1, w.active = true := by
  induction ws generalizing n with
  | nil => intro w hw; simp [respawnList] at hw
  | cons w ws ih =>
    intro u hu
    by_cases h : w.active
    · simp only [respawnList, h, if_true] at hu
      rcases List.mem_cons.mp hu with rfl | hu
      · exact h
      · exact ih _ u hu
    · simp only [respawnList, h, Bool.false_eq_true, if_false] at hu
      rcases List.mem_cons.mp hu with rfl | hu
      · rfl
      · exact ih _ u hu

theorem stickRow_length (g : ℤ → ℤ → Bool) (gs : ℕ) (p : ℚ)
    (sticks : ℕ → ℚ) (n : ℕ) (ws : List Walker) :
    (stickRow g gs p sticks n ws).length = ws.length := by
  induction ws generalizing n with
  | nil => rfl
  | cons w ws ih => simp [stickRow, ih]

theorem deactivatePhase_length (ws : List Walker) (mask : List Bool) :
    (deactivatePhase ws mask).length = min ws.length mask.length := by
  simp [deactivatePhase]

theorem spawnWalkers_length (s : Sim) (rng : Rng) :
    (spawnWalkers s rng).1.walkers.length = s.batch_size := by
  simp [spawnWalkers]

theorem spawnGuard_walkers_length (s : Sim) (rng : Rng)
    (hlen : s.walkers.length = s.batch_size) :
    (spawnGuard s rng).1.walkers.length = s.batch_size := by
  unfold spawnGuard
  by_cases h : anyActive s
  · simpa [h] using hlen
  · simp [h, spawnWalkers_length]

theorem spawnGuard_batch (s : Sim) (rng : Rng) :
    (spawnGuard s rng).1.batch_size = s.batch_size := by
  unfold spawnGuard
  by_cases h : anyActive s <;> simp [h, spawnWalkers]

theorem movePhase_length (s : Sim) (rng : Rng) :
    (movePhase s rng).1.walkers.length = s.walkers.length := by
  simp [movePhase, mapIdxFrom_length]

theorem killPhase_length (s : Sim) (k : ℤ) :
    (killPhase s k).walkers.length = s.walkers.length := by
  simp [killPhase]

/-! ### Phase-preservation and bounds lemmas -/

theorem killPhase_grid_size (s : Sim) (k : ℤ) :
    (killPhase s k).grid_size = s.grid_size := rfl

theorem movePhase_grid_size (s : Sim) (rng : Rng) :
    (movePhase s rng).1.grid_size = s.grid_size := rfl

theorem spawnGuard_grid_size (s : Sim) (rng : Rng) :
    (spawnGuard s rng).1.grid_size = s.grid_size := by
  unfold spawnGuard
  by_cases h : anyActive s <;> simp [h, spawnWalkers]

/-- A walker still active after steps 3–4 sits in the interior box
`[1, side-2]²`. -/
theorem killPhase_active_interior (s : Sim) (k : ℤ) :
    ∀ w ∈ (killPhase s k).walkers, w.active = true →
      1 ≤ w.x ∧ w.x < (s.grid_size : ℤ) - 1 ∧
      1 ≤ w.y ∧ w.y < (s.grid_size : ℤ) - 1 := by
  intro w hw hact
  simp only [killPhase, List.mem_map] at hw
  obtain ⟨w0, hw0, rfl⟩ := hw
  simp only [Bool.and_eq_true] at hact
  obtain ⟨h1, h2⟩ := hact
  have hoob : outOfBoundsW s.grid_size w0 = false := by
    simpa using h2
  unfold outOfBoundsW at hoob
  simp only [Bool.or_eq_false_iff, decide_eq_false_iff_not, not_lt, not_le]
    at hoob
  dsimp only
  omega

/-- A set stick bit implies the walker is active. -/
theorem zip_stickRow_active (g : ℤ → ℤ → Bool) (gs : ℕ) (p : ℚ)
    (sticks : ℕ → ℚ) :
    ∀ (n : ℕ) (ws : List Walker),
      ∀ wb ∈ ws.zip (stickRow g gs p sticks n ws), wb.2 = true →
        wb.1.active = true := by
  intro n ws
  induction ws generalizing n with
  | nil => intro wb hwb; simp at hwb
  | cons w ws ih =>
    intro wb hwb hb
    simp only [stickRow, List.zip_cons_cons, List.mem_cons] at hwb
    rcases hwb with rfl | hwb
    · simp only [Bool.and_eq_true] at hb
      exact hb.1.1
    · exact ih (n + 1) wb hwb hb

/-- Every stick target is the position of a walker with a set stick bit. -/
theorem stickTargets_decomp (ws : List Walker) (mask : List Bool) :
    ∀ q ∈ stickTargets ws mask,
      ∃ wb ∈ ws.zip mask, wb.2 = true ∧ q = (wb.1.x, wb.1.y) := by
  intro q hq
  simp only [stickTargets, List.mem_map, List.mem_filter] at hq
  obtain ⟨wb, ⟨hmem, hb⟩, rfl⟩ := hq
  exact ⟨wb, hmem, by simpa using hb, rfl⟩

/-- All stick targets computed right after steps 3–4 lie in the interior
box `[1, side-2]²`. -/
theorem stickTargets_killPhase_interior (s1 : Sim) (k : ℤ) (rng : Rng)
    (p : ℚ) :
    ∀ q ∈ stickTargets (killPhase s1 k).walkers
        (stickMask (killPhase s1 k) rng p).1,
      1 ≤ q.1 ∧ q.1 < (s1.grid_size : ℤ) - 1 ∧
      1 ≤ q.2 ∧ q.2 < (s1.grid_size : ℤ) - 1 := by
  intro q hq
  set s2 := killPhase s1 k with hs2
  obtain ⟨wb, hmem, hb, rfl⟩ := stickTargets_decomp _ _ q hq
  have hmem2 : wb ∈ s2.walkers.zip
      (stickRow s2.grid s2.grid_size p rng.sticks rng.sPos s2.walkers) := hmem
  have hact : wb.1.active = true :=
    zip_stickRow_active s2.grid s2.grid_size p rng.sticks rng.sPos
      s2.walkers wb hmem2 hb
  have hw : wb.1 ∈ s2.walkers := (List.of_mem_zip hmem2).1
  exact killPhase_active_interior s1 k wb.1 hw hact

theorem microTargets_interior (s : Sim) (rng : Rng) (p : ℚ) (k : ℤ) :
    ∀ q ∈ microTargets s rng p k,
      1 ≤ q.1 ∧ q.1 < (s.grid_size : ℤ) - 1 ∧
      1 ≤ q.2 ∧ q.2 < (s.grid_size : ℤ) - 1 := by
  intro q hq
  unfold microTargets at hq
  have h := stickTargets_killPhase_interior
    (movePhase (spawnGuard s rng).1 (spawnGuard s rng).2).1 k
    (movePhase (spawnGuard s rng).1 (spawnGuard s rng).2).2 p q hq
  rwa [movePhase_grid_size, spawnGuard_grid_size] at h

/-! ### Commit-fold lemmas -/

theorem commitOne_grid_mono (c : ℤ) (st : GState) (pos : ℤ × ℤ) (a b : ℤ)
    (h : st.grid a b = true) : (commitOne c st pos).grid a b = true := by
  unfold commitOne
  by_cases hg : st.grid pos.1 pos.2
  · simp [hg, h]
  · simp only [hg, Bool.false_eq_true, if_false, setCell]
    by_cases hab : a = pos.1 ∧ b = pos.2 <;> simp [hab, h]

theorem commit_fold_grid_mono (c : ℤ) (l : List (ℤ × ℤ)) :
    ∀ (st : GState) (a b : ℤ), st.grid a b = true →
      (l.foldl (commitOne c) st).grid a b = true := by
  induction l with
  | nil => intro st a b h; exact h
  | cons q rest ih =>
    intro st a b h
    exact ih _ a b (commitOne_grid_mono c st q a b h)

theorem commit_fold_mem_grid (c : ℤ) (l : List (ℤ × ℤ)) :
    ∀ (st : GState), ∀ q ∈ l,
      (l.foldl (commitOne c) st).grid q.1 q.2 = true := by
  induction l with
  | nil => intro st q hq; simp at hq
  | cons r rest ih =>
    intro st q hq
    rcases List.mem_cons.mp hq with rfl | hq
    · show (rest.foldl (commitOne c) (commitOne c st q)).grid q.1 q.2 = true
      apply commit_fold_grid_mono
      unfold commitOne
      by_cases hg : st.grid q.1 q.2
      · simp [hg]
      · simp [hg, setCell]
    · exact ih _ q hq

/-- The commit loop increments `particles_added` and the call-scoped
`added` counter in lockstep. -/
theorem commit_fold_pa (c : ℤ) (l : List (ℤ × ℤ)) :
    ∀ st : GState,
      (l.foldl (commitOne c) st).particles_added + st.added =
        st.particles_added + (l.foldl (commitOne c) st).added := by
  induction l with
  | nil => intro st; rfl
  | cons q rest ih =>
    intro st
    show (rest.foldl (commitOne c) (commitOne c st q)).particles_added + _ =
      _ + (rest.foldl (commitOne c) (commitOne c st q)).added
    have h := ih (commitOne c st q)
    unfold commitOne at h ⊢
    by_cases hg : st.grid q.1 q.2
    · simp only [hg, if_true] at h ⊢
      omega
    · simp only [hg, Bool.false_eq_true, if_false] at h ⊢
      omega

/-- The newly-stuck count produced by the commit loop is the number of
*distinct* targeted cells that were unoccupied when the loop started:
simultaneous targets of one cell are counted once. -/
theorem commit_fold_added (c : ℤ) (l : List (ℤ × ℤ)) :
    ∀ st : GState,
      (l.foldl (commitOne c) st).added = st.added +
        (l.toFinset.filter (fun q => st.grid q.1 q.2 = false)).card := by
  induction l with
  | nil => intro st; simp
  | cons q rest ih =>
    intro st
    show (rest.foldl (commitOne c) (commitOne c st q)).added = _
    by_cases hg : st.grid q.1 q.2
    · have hone : commitOne c st q = st := by
        unfold commitOne
        simp [hg]
      rw [hone, ih st]
      congr 1
      rw [List.toFinset_cons, Finset.filter_insert]
      simp [hg]
    · have hone : (commitOne c st q) = ⟨setCell st.grid q.1 q.2,
          st.particles_added + 1,
          max st.max_radius
            (intSqrt ((q.1 - c) ^ 2 + (q.2 - c) ^ 2).toNat + 1),
          st.added + 1⟩ := by
        unfold commitOne
        simp [hg]
      rw [hone, ih]
      dsimp only
      have hset : (rest.toFinset.filter
          (fun r => setCell st.grid q.1 q.2 r.1 r.2 = false)) =
          (rest.toFinset.filter
            (fun r => st.grid r.1 r.2 = false)).erase q := by
        ext r
        simp only [Finset.mem_filter, Finset.mem_erase, setCell]
        constructor
        · intro ⟨hmem, hval⟩
          by_cases hr : r.1 = q.1 ∧ r.2 = q.2
          · simp [hr] at hval
          · refine ⟨?_, hmem, ?_⟩
            · intro hrq
              exact hr ⟨by rw [hrq], by rw [hrq]⟩
            · simpa [hr] using hval
        · intro ⟨hne, hmem, hval⟩
          refine ⟨hmem, ?_⟩
          have hr : ¬(r.1 = q.1 ∧ r.2 = q.2) := by
            intro hj
            exact hne (Prod.ext hj.1 hj.2)
          simpa [hr] using hval
      rw [hset]
      rw [List.toFinset_cons, Finset.filter_insert]
      have hgf : st.grid q.1 q.2 = false := by simpa using hg
      rw [if_pos hgf]
      set X := rest.toFinset.filter (fun r => st.grid r.1 r.2 = false)
        with hX
      by_cases hqX : q ∈ X
      · rw [Finset.card_insert_of_mem hqX, Finset.card_erase_of_mem hqX]
        have hpos : 1 ≤ X.card := Finset.card_pos.mpr ⟨q, hqX⟩
        omega
      · rw [Finset.card_insert_of_not_mem hqX,
          Finset.erase_eq_of_not_mem hqX]
        omega

/-- A checked commit over in-grid targets never fails and agrees with the
unchecked commit fold. -/
theorem commitChecked_eq_fold (gs : ℕ) (c : ℤ) :
    ∀ (l : List (ℤ × ℤ)) (st : GState),
      (∀ q ∈ l, 0 ≤ q.1 ∧ q.1 < (gs : ℤ) ∧ 0 ≤ q.2 ∧ q.2 < (gs : ℤ)) →
      commitChecked gs c st l = some (l.foldl (commitOne c) st) := by
  intro l
  induction l with
  | nil => intro st h; rfl
  | cons q rest ih =>
    intro st h
    have hq := h q (List.mem_cons_self q rest)
    unfold commitChecked occupyChecked
    rw [if_pos ⟨hq.1, hq.2.1, hq.2.2.1, hq.2.2.2⟩]
    exact ih _ (fun r hr => h r (List.mem_cons_of_mem q hr))

theorem resolveChecked_eq (s1 : Sim) (k : ℤ) (rng : Rng) (p : ℚ)
    (added : ℕ) :
    resolveChecked (killPhase s1 k) rng p added =
      some (resolvePhase (killPhase s1 k) rng p added) := by
  have htgt := stickTargets_killPhase_interior s1 k rng p
  have hbound : ∀ q ∈ stickTargets (killPhase s1 k).walkers
      (stickMask (killPhase s1 k) rng p).1,
      0 ≤ q.1 ∧ q.1 < ((killPhase s1 k).grid_size : ℤ) ∧
      0 ≤ q.2 ∧ q.2 < ((killPhase s1 k).grid_size : ℤ) := by
    intro q hq
    have := htgt q hq
    have hgs : (killPhase s1 k).grid_size = s1.grid_size := rfl
    rw [hgs]
    omega
  unfold resolveChecked resolvePhase commitPhaseChecked commitPhase
  dsimp only
  rw [commitChecked_eq_fold _ _ _ _ hbound]
  rfl

theorem microStepChecked_eq (p : ℚ) (k : ℤ) (s : Sim) (rng : Rng)
    (added : ℕ) :
    microStepChecked p k s rng added = some (microStep p k s rng added) := by
  unfold microStepChecked microStep
  by_cases h : anyActive (killPhase
      (movePhase (spawnGuard s rng).1 (spawnGuard s rng).2).1 k)
  · simp only [h, if_true]
    exact resolveChecked_eq _ k _ p added
  · have h2 : anyActive (killPhase
        (movePhase (spawnGuard s rng).1 (spawnGuard s rng).2).1 k) = false := by
      simpa using h
    simp only [h2, Bool.false_eq_true, if_false]

theorem stepLoopChecked_eq (p : ℚ) (k : ℤ) :
    ∀ (n : ℕ) (s : Sim) (rng : Rng) (added : ℕ),
      stepLoopChecked p k n s rng added =
        some (stepLoop p k n s rng added) := by
  intro n
  induction n with
  | zero => intro s rng added; rfl
  | succ m ih =>
    intro s rng added
    unfold stepLoopChecked stepLoop
    rw [microStepChecked_eq]
    exact ih _ _ _

/-! ### Preservation lemmas -/

theorem spawnGuard_center (s : Sim) (rng : Rng) :
    (spawnGuard s rng).1.center = s.center := by
  unfold spawnGuard
  by_cases h : anyActive s <;> simp [h, spawnWalkers]

theorem spawnGuard_grid (s : Sim) (rng : Rng) :
    (spawnGuard s rng).1.grid = s.grid := by
  unfold spawnGuard
  by_cases h : anyActive s <;> simp [h, spawnWalkers]

theorem spawnGuard_mr (s : Sim) (rng : Rng) :
    (spawnGuard s rng).1.max_radius = s.max_radius := by
  unfold spawnGuard
  by_cases h : anyActive s <;> simp [h, spawnWalkers]

theorem spawnGuard_pa (s : Sim) (rng : Rng) :
    (spawnGuard s rng).1.particles_added = s.particles_added := by
  unfold spawnGuard
  by_cases h : anyActive s <;> simp [h, spawnWalkers]

theorem commit_fold_mr_mono (c : ℤ) (l : List (ℤ × ℤ)) :
    ∀ st : GState, st.max_radius ≤ (l.foldl (commitOne c) st).max_radius := by
  induction l with
  | nil => intro st; exact le_refl _
  | cons q rest ih =>
    intro st
    refine le_trans ?_ (ih (commitOne c st q))
    unfold commitOne
    by_cases hg : st.grid q.1 q.2 <;> simp [hg]

theorem commit_fold_pa_mono (c : ℤ) (l : List (ℤ × ℤ)) :
    ∀ st : GState,
      st.particles_added ≤ (l.foldl (commitOne c) st).particles_added := by
  induction l with
  | nil => intro st; exact le_refl _
  | cons q rest ih =>
    intro st
    refine le_trans ?_ (ih (commitOne c st q))
    unfold commitOne
    by_cases hg : st.grid q.1 q.2 <;> simp [hg]

theorem microStep_preserves (p : ℚ) (k : ℤ) (s : Sim) (rng : Rng)
    (added : ℕ) :
    (microStep p k s rng added).1.center = s.center ∧
    (microStep p k s rng added).1.grid_size = s.grid_size ∧
    s.max_radius ≤ (microStep p k s rng added).1.max_radius ∧
    s.particles_added ≤ (microStep p k s rng added).1.particles_added ∧
    ∀ a b : ℤ, s.grid a b = true →
      (microStep p k s rng added).1.grid a b = true := by
  unfold microStep
  set g := spawnGuard s rng with hg
  set mv := movePhase g.1 g.2 with hmv
  set s2 := killPhase mv.1 k with hs2
  have hc2 : s2.center = s.center := by
    show g.1.center = s.center
    exact spawnGuard_center s rng
  have hgs2 : s2.grid_size = s.grid_size := by
    show g.1.grid_size = s.grid_size
    exact spawnGuard_grid_size s rng
  have hmr2 : s2.max_radius = s.max_radius := by
    show g.1.max_radius = s.max_radius
    exact spawnGuard_mr s rng
  have hpa2 : s2.particles_added = s.particles_added := by
    show g.1.particles_added = s.particles_added
    exact spawnGuard_pa s rng
  have hgr2 : s2.grid = s.grid := by
    show g.1.grid = s.grid
    exact spawnGuard_grid s rng
  by_cases h : anyActive s2
  · simp only [h, if_true]
    set tg := stickTargets s2.walkers (stickMask s2 mv.2 p).1 with htg
    have hcr : (resolvePhase s2 mv.2 p added).1.center = s2.center := rfl
    have hgsr : (resolvePhase s2 mv.2 p added).1.grid_size = s2.grid_size := rfl
    have hmrr : (resolvePhase s2 mv.2 p added).1.max_radius =
        (tg.foldl (commitOne s2.center)
          ⟨s2.grid, s2.particles_added, s2.max_radius, added⟩).max_radius := rfl
    have hpar : (resolvePhase s2 mv.2 p added).1.particles_added =
        (tg.foldl (commitOne s2.center)
          ⟨s2.grid, s2.particles_added, s2.max_radius, added⟩).particles_added := rfl
    have hgrr : (resolvePhase s2 mv.2 p added).1.grid =
        (tg.foldl (commitOne s2.center)
          ⟨s2.grid, s2.particles_added, s2.max_radius, added⟩).grid := rfl
    refine ⟨by rw [hcr, hc2], by rw [hgsr, hgs2], ?_, ?_, ?_⟩
    · rw [hmrr, ← hmr2]
      exact commit_fold_mr_mono s2.center tg
        ⟨s2.grid, s2.particles_added, s2.max_radius, added⟩
    · rw [hpar, ← hpa2]
      exact commit_fold_pa_mono s2.center tg
        ⟨s2.grid, s2.particles_added, s2.max_radius, added⟩
    · intro a b hab
      rw [hgrr]
      apply commit_fold_grid_mono
      show s2.grid a b = true
      rw [hgr2]
      exact hab
  · have h2 : anyActive s2 = false := by simpa using h
    simp only [h2, Bool.false_eq_true, if_false]
    exact ⟨hc2, hgs2, le_of_eq hmr2.symm, le_of_eq hpa2.symm,
      fun a b hab => by rw [hgr2]; exact hab⟩

theorem stepLoop_preserves (p : ℚ) (k : ℤ) :
    ∀ (n : ℕ) (s : Sim) (rng : Rng) (added : ℕ),
      (stepLoop p k n s rng added).1.center = s.center ∧
      (stepLoop p k n s rng added).1.grid_size = s.grid_size ∧
      s.max_radius ≤ (stepLoop p k n s rng added).1.max_radius ∧
      s.particles_added ≤ (stepLoop p k n s rng added).1.particles_added ∧
      ∀ a b : ℤ, s.grid a b = true →
        (stepLoop p k n s rng added).1.grid a b = true := by
  intro n
  induction n with
  | zero =>
    intro s rng added
    exact ⟨rfl, rfl, le_refl _, le_refl _, fun a b h => h⟩
  | succ m ih =>
    intro s rng added
    obtain ⟨h1, h2, h3, h4, h5⟩ := microStep_preserves p k s rng added
    obtain ⟨g1, g2, g3, g4, g5⟩ := ih (microStep p k s rng added).1
      (microStep p k s rng added).2.1 (microStep p k s rng added).2.2
    unfold stepLoop
    exact ⟨by rw [g1, h1], by rw [g2, h2], le_trans h3 g3, le_trans h4 g4,
      fun a b hab => g5 a b (h5 a b hab)⟩

theorem runCalls_preserves :
    ∀ (calls : List (ℚ × ℕ)) (sr : Sim × Rng),
      (runCalls sr calls).1.center = sr.1.center ∧
      (runCalls sr calls).1.grid_size = sr.1.grid_size ∧
      sr.1.max_radius ≤ (runCalls sr calls).1.max_radius ∧
      sr.1.particles_added ≤ (runCalls sr calls).1.particles_added ∧
      ∀ a b : ℤ, sr.1.grid a b = true →
        (runCalls sr calls).1.grid a b = true := by
  intro calls
  induction calls with
  | nil =>
    intro sr
    exact ⟨rfl, rfl, le_refl _, le_refl _, fun a b h => h⟩
  | cons c rest ih =>
    intro sr
    obtain ⟨h1, h2, h3, h4, h5⟩ :=
      stepLoop_preserves c.1 (((sr.1.max_radius : ℤ) + 50) ^ 2) c.2 sr.1 sr.2 0
    obtain ⟨g1, g2, g3, g4, g5⟩ := ih ((step sr.1 sr.2 c.1 c.2).1,
      (step sr.1 sr.2 c.1 c.2).2.1)
    unfold runCalls
    exact ⟨by rw [g1]; exact h1, by rw [g2]; exact h2, le_trans h3 g3,
      le_trans h4 g4, fun a b hab => g5 a b (h5 a b hab)⟩

/-! ### Occupied-cell counting lemmas -/

theorem sum_indicator_pair (gs : ℕ) (a b : ℤ) (ha : 0 ≤ a)
    (ha2 : a < (gs : ℤ)) (hb : 0 ≤ b) (hb2 : b < (gs : ℤ)) :
    (∑ i ∈ Finset.range gs, ∑ j ∈ Finset.range gs,
      if (i : ℤ) = a ∧ (j : ℤ) = b then 1 else 0) = 1 := by
  have hconv : ∀ i j : ℕ, (((i : ℤ) = a ∧ (j : ℤ) = b) ↔
      (i = a.toNat ∧ j = b.toNat)) := by
    intro i j
    omega
  have hrw : ∀ i j : ℕ, (if (i : ℤ) = a ∧ (j : ℤ) = b then (1 : ℕ) else 0) =
      if i = a.toNat ∧ j = b.toNat then 1 else 0 := by
    intro i j
    by_cases h : (i : ℤ) = a ∧ (j : ℤ) = b
    · rw [if_pos h, if_pos ((hconv i j).mp h)]
    · rw [if_neg h, if_neg (fun h2 => h ((hconv i j).mpr h2))]
  rw [Finset.sum_congr rfl (fun i _ => Finset.sum_congr rfl
    (fun j _ => hrw i j))]
  have hinner : ∀ i : ℕ, (∑ j ∈ Finset.range gs,
      if i = a.toNat ∧ j = b.toNat then (1 : ℕ) else 0) =
      if i = a.toNat then 1 else 0 := by
    intro i
    by_cases hi : i = a.toNat
    · simp only [hi, true_and]
      rw [Finset.sum_ite_eq' (Finset.range gs) b.toNat (fun _ => (1 : ℕ))]
      rw [if_pos (Finset.mem_range.mpr (by omega))]
      simp
    · simp [hi]
  rw [Finset.sum_congr rfl (fun i _ => hinner i)]
  rw [Finset.sum_ite_eq' (Finset.range gs) a.toNat (fun _ => (1 : ℕ))]
  rw [if_pos (Finset.mem_range.mpr (by omega))]

theorem gridCount_setCell (g : ℤ → ℤ → Bool) (gs : ℕ) (a b : ℤ)
    (ha : 0 ≤ a) (ha2 : a < (gs : ℤ)) (hb : 0 ≤ b) (hb2 : b < (gs : ℤ))
    (hg : g a b = false) :
    gridCount (setCell g a b) gs = gridCount g gs + 1 := by
  unfold gridCount
  have hpt : ∀ i j : ℕ, (if setCell g a b (i : ℤ) (j : ℤ) then (1 : ℕ) else 0) =
      (if g (i : ℤ) (j : ℤ) then 1 else 0) +
      (if (i : ℤ) = a ∧ (j : ℤ) = b then 1 else 0) := by
    intro i j
    unfold setCell
    by_cases hij : (i : ℤ) = a ∧ (j : ℤ) = b
    · have hg2 : g (i : ℤ) (j : ℤ) = false := by
        rw [hij.1, hij.2]
        exact hg
      simp [hij, hg2, hg]
    · simp [hij]
  rw [Finset.sum_congr rfl (fun i _ => Finset.sum_congr rfl
    (fun j _ => hpt i j))]
  have hsplit : (∑ i ∈ Finset.range gs, ∑ j ∈ Finset.range gs,
      ((if g (i : ℤ) (j : ℤ) then (1 : ℕ) else 0) +
       (if (i : ℤ) = a ∧ (j : ℤ) = b then 1 else 0))) =
      (∑ i ∈ Finset.range gs, ∑ j ∈ Finset.range gs,
        if g (i : ℤ) (j : ℤ) then (1 : ℕ) else 0) +
      (∑ i ∈ Finset.range gs, ∑ j ∈ Finset.range gs,
        if (i : ℤ) = a ∧ (j : ℤ) = b then (1 : ℕ) else 0) := by
    rw [← Finset.sum_add_distrib]
    apply Finset.sum_congr rfl
    intro i _
    rw [← Finset.sum_add_distrib]
  rw [hsplit, sum_indicator_pair gs a b ha ha2 hb hb2]

theorem gridCount_initGrid (gs : ℕ) (c : ℤ) (hc : 0 ≤ c)
    (hc2 : c < (gs : ℤ)) : gridCount (initGrid c) gs = 1 := by
  have hpt : ∀ i j : ℕ, (if initGrid c (i : ℤ) (j : ℤ) then (1 : ℕ) else 0) =
      if (i : ℤ) = c ∧ (j : ℤ) = c then 1 else 0 := by
    intro i j
    by_cases h : (i : ℤ) = c ∧ (j : ℤ) = c
    · simp [initGrid, h]
    · simp [initGrid, h]
  unfold gridCount
  rw [Finset.sum_congr rfl (fun i _ => Finset.sum_congr rfl
    (fun j _ => hpt i j))]
  exact sum_indicator_pair gs c c hc hc2 hc hc2

theorem commit_fold_gridCount (gs : ℕ) (c : ℤ) :
    ∀ (l : List (ℤ × ℤ)) (st : GState),
      (∀ q ∈ l, 0 ≤ q.1 ∧ q.1 < (gs : ℤ) ∧ 0 ≤ q.2 ∧ q.2 < (gs : ℤ)) →
      gridCount (l.foldl (commitOne c) st).grid gs + st.added =
        gridCount st.grid gs + (l.foldl (commitOne c) st).added := by
  intro l
  induction l with
  | nil => intro st _; rfl
  | cons q rest ih =>
    intro st hl
    have hq := hl q (List.mem_cons_self q rest)
    have hrest : ∀ r ∈ rest, 0 ≤ r.1 ∧ r.1 < (gs : ℤ) ∧ 0 ≤ r.2 ∧
        r.2 < (gs : ℤ) := fun r hr => hl r (List.mem_cons_of_mem q hr)
    show gridCount (rest.foldl (commitOne c) (commitOne c st q)).grid gs + _ =
      _ + (rest.foldl (commitOne c) (commitOne c st q)).added
    by_cases hg : st.grid q.1 q.2
    · have hone : commitOne c st q = st := by
        unfold commitOne
        simp [hg]
      rw [hone]
      exact ih st hrest
    · have hgf : st.grid q.1 q.2 = false := by simpa using hg
      have hone : (commitOne c st q) = ⟨setCell st.grid q.1 q.2,
          st.particles_added + 1,
          max st.max_radius
            (intSqrt ((q.1 - c) ^ 2 + (q.2 - c) ^ 2).toNat + 1),
          st.added + 1⟩ := by
        unfold commitOne
        simp [hg]
      rw [hone]
      have hih := ih ⟨setCell st.grid q.1 q.2, st.particles_added + 1,
        max st.max_radius
          (intSqrt ((q.1 - c) ^ 2 + (q.2 - c) ^ 2).toNat + 1),
        st.added + 1⟩ hrest
      dsimp only at hih
      have hcnt := gridCount_setCell st.grid gs q.1 q.2 hq.1 hq.2.1
        hq.2.2.1 hq.2.2.2 hgf
      rw [hcnt] at hih
      omega

theorem microStep_gridCount (p : ℚ) (k : ℤ) (s : Sim) (rng : Rng)
    (added : ℕ) (h : gridCount s.grid s.grid_size = s.particles_added) :
    gridCount (microStep p k s rng added).1.grid
      (microStep p k s rng added).1.grid_size =
      (microStep p k s rng added).1.particles_added := by
  unfold microStep
  set g := spawnGuard s rng with hgdef
  set mv := movePhase g.1 g.2 with hmvdef
  set s2 := killPhase mv.1 k with hs2def
  have hgr2 : s2.grid = s.grid := by
    show g.1.grid = s.grid
    exact spawnGuard_grid s rng
  have hgs2 : s2.grid_size = s.grid_size := by
    show g.1.grid_size = s.grid_size
    exact spawnGuard_grid_size s rng
  have hpa2 : s2.particles_added = s.particles_added := by
    show g.1.particles_added = s.particles_added
    exact spawnGuard_pa s rng
  by_cases h2 : anyActive s2
  · simp only [h2, if_true]
    have htgt := stickTargets_killPhase_interior mv.1 k mv.2 p
    have hbounds : ∀ q ∈ stickTargets s2.walkers (stickMask s2 mv.2 p).1,
        0 ≤ q.1 ∧ q.1 < (s2.grid_size : ℤ) ∧
        0 ≤ q.2 ∧ q.2 < (s2.grid_size : ℤ) := by
      intro q hq
      have hi := htgt q hq
      have hgseq : s2.grid_size = mv.1.grid_size := rfl
      rw [hgseq]
      omega
    set tg := stickTargets s2.walkers (stickMask s2 mv.2 p).1 with htgdef
    have hfold := commit_fold_gridCount s2.grid_size s2.center tg
      ⟨s2.grid, s2.particles_added, s2.max_radius, added⟩ hbounds
    have hpa := commit_fold_pa s2.center tg
      ⟨s2.grid, s2.particles_added, s2.max_radius, added⟩
    have hgrr : (resolvePhase s2 mv.2 p added).1.grid =
        (tg.foldl (commitOne s2.center)
          ⟨s2.grid, s2.particles_added, s2.max_radius, added⟩).grid := rfl
    have hpar : (resolvePhase s2 mv.2 p added).1.particles_added =
        (tg.foldl (commitOne s2.center)
          ⟨s2.grid, s2.particles_added, s2.max_radius,
            added⟩).particles_added := rfl
    have hgsr : (resolvePhase s2 mv.2 p added).1.grid_size = s2.grid_size :=
      rfl
    rw [hgrr, hpar, hgsr]
    rw [hgr2, hgs2, hpa2]
    dsimp only at hfold hpa
    rw [hgr2, hgs2, hpa2] at hfold
    rw [hgr2, hpa2] at hpa
    omega
  · have h3 : anyActive s2 = false := by simpa using h2
    simp only [h3, Bool.false_eq_true, if_false]
    show gridCount s2.grid s2.grid_size = s2.particles_added
    rw [hgr2, hgs2, hpa2]
    exact h

theorem stepLoop_gridCount (p : ℚ) (k : ℤ) :
    ∀ (n : ℕ) (s : Sim) (rng : Rng) (added : ℕ),
      gridCount s.grid s.grid_size = s.particles_added →
      gridCount (stepLoop p k n s rng added).1.grid
        (stepLoop p k n s rng added).1.grid_size =
        (stepLoop p k n s rng added).1.particles_added := by
  intro n
  induction n with
  | zero => intro s rng added h; exact h
  | succ m ih =>
    intro s rng added h
    exact ih _ _ _ (microStep_gridCount p k s rng added h)

theorem runCalls_gridCount :
    ∀ (calls : List (ℚ × ℕ)) (sr : Sim × Rng),
      gridCount sr.1.grid sr.1.grid_size = sr.1.particles_added →
      gridCount (runCalls sr calls).1.grid
        (runCalls sr calls).1.grid_size =
        (runCalls sr calls).1.particles_added := by
  intro calls
  induction calls with
  | nil => intro sr h; exact h
  | cons c rest ih =>
    intro sr h
    exact ih _ (stepLoop_gridCount c.1 _ c.2 sr.1 sr.2 0 h)

/-- The natural floor of the real square root is `Nat.sqrt`. -/
theorem natFloor_real_sqrt (n : ℕ) : ⌊Real.sqrt (n : ℝ)⌋₊ = Nat.sqrt n := by
  have h1 : ((Nat.sqrt n : ℕ) : ℝ) ≤ Real.sqrt n := by
    rw [show ((Nat.sqrt n : ℕ) : ℝ) = Real.sqrt (((Nat.sqrt n : ℕ) : ℝ) ^ 2)
      by rw [Real.sqrt_sq (by positivity)]]
    apply Real.sqrt_le_sqrt
    exact_mod_cast Nat.sqrt_le' n
  have h2 : Real.sqrt n < (Nat.sqrt n : ℝ) + 1 := by
    have hn : (n : ℝ) < ((Nat.sqrt n : ℝ) + 1) ^ 2 := by
      exact_mod_cast Nat.lt_succ_sqrt' n
    have h3 := Real.sqrt_lt_sqrt (by positivity) hn
    rwa [Real.sqrt_sq (by positivity)] at h3
  have hnn : 0 ≤ Real.sqrt (n : ℝ) := Real.sqrt_nonneg _
  rw [Nat.floor_eq_iff hnn]
  constructor
  · exact h1
  · push_cast
    exact h2

/-! ### Truncation geometry and the radius invariant -/

theorem truncQ_le (t : ℚ) : ((truncQ t : ℤ) : ℚ) ≤ t + 1 ∧
    t - 1 ≤ ((truncQ t : ℤ) : ℚ) := by
  unfold truncQ
  by_cases h : 0 ≤ t
  · rw [if_pos h]
    have h1 : ((⌊t⌋ : ℤ) : ℚ) ≤ t := Int.floor_le t
    have h2 : t - 1 < ((⌊t⌋ : ℤ) : ℚ) := Int.sub_one_lt_floor t
    constructor <;> linarith
  · rw [if_neg h]
    have h1 : t ≤ ((⌈t⌉ : ℤ) : ℚ) := Int.le_ceil t
    have h2 : ((⌈t⌉ : ℤ) : ℚ) < t + 1 := Int.ceil_lt_add_one t
    constructor <;> linarith

theorem sq_lower_nonneg (a u : ℚ) (h1 : -1 ≤ a - u) (hu : 0 ≤ u) :
    u ^ 2 - 2 * u ≤ a ^ 2 := by
  nlinarith [sq_nonneg (a - u),
    mul_nonneg hu (by linarith : (0 : ℚ) ≤ a - u + 1)]

theorem sq_lower_abs (a u : ℚ) (h1 : -1 ≤ a - u) (h2 : a - u ≤ 1) :
    u ^ 2 - 2 * |u| ≤ a ^ 2 := by
  rcases le_or_lt 0 u with hu | hu
  · rw [abs_of_nonneg hu]
    exact sq_lower_nonneg a u h1 hu
  · rw [abs_of_neg hu]
    have h3 := sq_lower_nonneg (-a) (-u) (by linarith) (by linarith)
    nlinarith [h3]

/-- A point of the circle of radius `R ≥ 6` around an integer center,
truncated coordinatewise toward zero, stays at distance `> R - 5` from
the center. -/
theorem trunc_circle_far (R : ℚ) (hR : 6 ≤ R) (cc ss : ℚ)
    (hunit : cc ^ 2 + ss ^ 2 = 1) (cg : ℤ) :
    (R - 5) ^ 2 <
      (((truncQ ((cg : ℚ) + R * cc) - cg : ℤ) : ℚ)) ^ 2 +
      (((truncQ ((cg : ℚ) + R * ss) - cg : ℤ) : ℚ)) ^ 2 := by
  set u := R * cc with hu
  set v := R * ss with hv
  have huv : u ^ 2 + v ^ 2 = R ^ 2 := by
    rw [hu, hv]
    have hf : (R * cc) ^ 2 + (R * ss) ^ 2 = R ^ 2 * (cc ^ 2 + ss ^ 2) := by
      ring
    rw [hf, hunit]
    ring
  set a : ℚ := ((truncQ ((cg : ℚ) + u) - cg : ℤ) : ℚ) with ha
  set b : ℚ := ((truncQ ((cg : ℚ) + v) - cg : ℤ) : ℚ) with hb
  have hta := truncQ_le ((cg : ℚ) + u)
  have htb := truncQ_le ((cg : ℚ) + v)
  have ha1 : -1 ≤ a - u := by
    rw [ha]
    push_cast
    linarith [hta.2]
  have ha2 : a - u ≤ 1 := by
    rw [ha]
    push_cast
    linarith [hta.1]
  have hb1 : -1 ≤ b - v := by
    rw [hb]
    push_cast
    linarith [htb.2]
  have hb2 : b - v ≤ 1 := by
    rw [hb]
    push_cast
    linarith [htb.1]
  have hLa := sq_lower_abs a u ha1 ha2
  have hLb := sq_lower_abs b v hb1 hb2
  set p := |u| with hp
  set q := |v| with hq
  have hp0 : 0 ≤ p := abs_nonneg u
  have hq0 : 0 ≤ q := abs_nonneg v
  have hps : p ^ 2 = u ^ 2 := sq_abs u
  have hqs : q ^ 2 = v ^ 2 := sq_abs v
  have hpq2 : (p + q) ^ 2 ≤ (3 / 2 * R) ^ 2 := by
    nlinarith [sq_nonneg (p - q), sq_nonneg R]
  have hpq : p + q ≤ 3 / 2 * R := by
    by_contra hcon
    push_neg at hcon
    have h32 : (0 : ℚ) ≤ 3 / 2 * R := by linarith
    have hlt : (3 / 2 * R) ^ 2 < (p + q) ^ 2 :=
      pow_lt_pow_left hcon h32 two_ne_zero
    linarith
  have hsum : R ^ 2 - 2 * (p + q) ≤ a ^ 2 + b ^ 2 := by
    linarith [hLa, hLb, huv]
  have hfin : (R - 5) ^ 2 < R ^ 2 - 3 * R := by
    nlinarith
  linarith

theorem commitOne_radiusInvG (c : ℤ) (st : GState) (q : ℤ × ℤ)
    (h : RadiusInvG c st) : RadiusInvG c (commitOne c st q) := by
  intro x y hxy
  unfold commitOne at hxy ⊢
  by_cases hg : st.grid q.1 q.2
  · simp only [hg, if_true] at hxy ⊢
    exact h x y hxy
  · simp only [hg, Bool.false_eq_true, if_false] at hxy ⊢
    set d2 : ℤ := (q.1 - c) ^ 2 + (q.2 - c) ^ 2 with hd2def
    have hd2 : 0 ≤ d2 := by positivity
    have hmax : st.max_radius ≤ max st.max_radius (intSqrt d2.toNat + 1) :=
      le_max_left _ _
    have hmax2 : intSqrt d2.toNat + 1 ≤
        max st.max_radius (intSqrt d2.toNat + 1) := le_max_right _ _
    rcases (by
      unfold setCell at hxy
      by_cases hq : x = q.1 ∧ y = q.2
      · exact Or.inl hq
      · rw [if_neg hq] at hxy
        exact Or.inr hxy :
      (x = q.1 ∧ y = q.2) ∨ st.grid x y = true) with hq | hold
    · rw [hq.1, hq.2]
      have hn : d2.toNat < (Nat.sqrt d2.toNat + 1) ^ 2 :=
        Nat.lt_succ_sqrt' _
      rw [← intSqrt_eq] at hn
      have hcast : ((d2.toNat : ℤ)) = d2 := Int.toNat_of_nonneg hd2
      have hz : d2 < ((intSqrt d2.toNat + 1 : ℕ) : ℤ) ^ 2 := by
        rw [← hcast]
        exact_mod_cast hn
      calc (q.1 - c) ^ 2 + (q.2 - c) ^ 2 = d2 := by rw [hd2def]
        _ < ((intSqrt d2.toNat + 1 : ℕ) : ℤ) ^ 2 := hz
        _ ≤ ((max st.max_radius (intSqrt d2.toNat + 1) : ℕ) : ℤ) ^ 2 := by
            have := pow_le_pow_left (by positivity :
              (0 : ℤ) ≤ ((intSqrt d2.toNat + 1 : ℕ) : ℤ))
              (by exact_mod_cast hmax2 :
                ((intSqrt d2.toNat + 1 : ℕ) : ℤ) ≤
                ((max st.max_radius (intSqrt d2.toNat + 1) : ℕ) : ℤ)) 2
            exact this
    · calc (x - c) ^ 2 + (y - c) ^ 2 < ((st.max_radius : ℕ) : ℤ) ^ 2 :=
            h x y hold
        _ ≤ ((max st.max_radius (intSqrt d2.toNat + 1) : ℕ) : ℤ) ^ 2 := by
            have := pow_le_pow_left (by positivity :
              (0 : ℤ) ≤ ((st.max_radius : ℕ) : ℤ))
              (by exact_mod_cast hmax :
                ((st.max_radius : ℕ) : ℤ) ≤
                ((max st.max_radius (intSqrt d2.toNat + 1) : ℕ) : ℤ)) 2
            exact this

theorem commit_fold_radiusInvG (c : ℤ) (l : List (ℤ × ℤ)) :
    ∀ st : GState, RadiusInvG c st →
      RadiusInvG c (l.foldl (commitOne c) st) := by
  induction l with
  | nil => intro st h; exact h
  | cons q rest ih =>
    intro st h
    exact ih _ (commitOne_radiusInvG c st q h)

theorem microStep_radiusInv (p : ℚ) (k : ℤ) (s : Sim) (rng : Rng)
    (added : ℕ) (h : RadiusInv s) : RadiusInv (microStep p k s rng added).1 := by
  unfold microStep
  set g := spawnGuard s rng with hgdef
  set mv := movePhase g.1 g.2 with hmvdef
  set s2 := killPhase mv.1 k with hs2def
  have hgr2 : s2.grid = s.grid := by
    show g.1.grid = s.grid
    exact spawnGuard_grid s rng
  have hc2 : s2.center = s.center := by
    show g.1.center = s.center
    exact spawnGuard_center s rng
  have hmr2 : s2.max_radius = s.max_radius := by
    show g.1.max_radius = s.max_radius
    exact spawnGuard_mr s rng
  have hinv2 : RadiusInv s2 := by
    intro x y hxy
    rw [hgr2] at hxy
    rw [hc2, hmr2]
    exact h x y hxy
  by_cases h2 : anyActive s2
  · simp only [h2, if_true]
    set tg := stickTargets s2.walkers (stickMask s2 mv.2 p).1 with htgdef
    have hfold := commit_fold_radiusInvG s2.center tg
      ⟨s2.grid, s2.particles_added, s2.max_radius, added⟩
      (by intro x y hxy; exact hinv2 x y hxy)
    intro x y hxy
    have hgrr : (resolvePhase s2 mv.2 p added).1.grid =
        (tg.foldl (commitOne s2.center)
          ⟨s2.grid, s2.particles_added, s2.max_radius, added⟩).grid := rfl
    have hcr : (resolvePhase s2 mv.2 p added).1.center = s2.center := rfl
    have hmrr : (resolvePhase s2 mv.2 p added).1.max_radius =
        (tg.foldl (commitOne s2.center)
          ⟨s2.grid, s2.particles_added, s2.max_radius,
            added⟩).max_radius := rfl
    rw [hgrr] at hxy
    rw [hcr, hmrr]
    exact hfold x y hxy
  · have h3 : anyActive s2 = false := by simpa using h2
    simp only [h3, Bool.false_eq_true, if_false]
    exact hinv2

theorem stepLoop_radiusInv (p : ℚ) (k : ℤ) :
    ∀ (n : ℕ) (s : Sim) (rng : Rng) (added : ℕ), RadiusInv s →
      RadiusInv (stepLoop p k n s rng added).1 := by
  intro n
  induction n with
  | zero => intro s rng added h; exact h
  | succ m ih =>
    intro s rng added h
    exact ih _ _ _ (microStep_radiusInv p k s rng added h)

theorem runCalls_radiusInv :
    ∀ (calls : List (ℚ × ℕ)) (sr : Sim × Rng), RadiusInv sr.1 →
      RadiusInv (runCalls sr calls).1 := by
  intro calls
  induction calls with
  | nil => intro sr h; exact h
  | cons c rest ih =>
    intro sr h
    exact ih _ (stepLoop_radiusInv c.1 _ c.2 sr.1 sr.2 0 h)

theorem initSim_radiusInv (gs bs : ℕ) (rng : Rng) :
    RadiusInv (initSim gs bs rng).1 := by
  intro x y hxy
  have hgr : (initSim gs bs rng).1.grid = initGrid ((gs / 2 : ℕ) : ℤ) := rfl
  have hc : (initSim gs bs rng).1.center = ((gs / 2 : ℕ) : ℤ) := rfl
  have hmr : (initSim gs bs rng).1.max_radius = 1 := rfl
  rw [hgr] at hxy
  rw [hc, hmr]
  unfold initGrid at hxy
  by_cases hq : x = ((gs / 2 : ℕ) : ℤ) ∧ y = ((gs / 2 : ℕ) : ℤ)
  · rw [hq.1, hq.2]
    norm_num
  · rw [if_neg hq] at hxy
    exact absurd hxy (by simp)

/-- At any state satisfying the radius invariant with `max_radius ≥ 1`,
the spawn rule cannot place a walker on an occupied cell. -/
theorem spawn_target_unoccupied (s : Sim) (hinv : RadiusInv s)
    (hmr : 1 ≤ s.max_radius) (cc ss : ℚ) (hunit : cc ^ 2 + ss ^ 2 = 1) :
    s.grid (spawnPos s.center ((s.max_radius : ℚ) + 5) (cc, ss)).1
      (spawnPos s.center ((s.max_radius : ℚ) + 5) (cc, ss)).2 = false := by
  set R : ℚ := (s.max_radius : ℚ) + 5 with hRdef
  by_cases hocc : s.grid (spawnPos s.center R (cc, ss)).1
      (spawnPos s.center R (cc, ss)).2 = true
  · exfalso
    have hd := hinv _ _ hocc
    have hR6 : 6 ≤ R := by
      rw [hRdef]
      have : (1 : ℚ) ≤ (s.max_radius : ℚ) := by exact_mod_cast hmr
      linarith
    have hfar := trunc_circle_far R hR6 cc ss hunit s.center
    have hX : (spawnPos s.center R (cc, ss)).1 =
        truncQ ((s.center : ℚ) + R * cc) := rfl
    have hY : (spawnPos s.center R (cc, ss)).2 =
        truncQ ((s.center : ℚ) + R * ss) := rfl
    rw [hX, hY] at hd
    have hdq : (((truncQ ((s.center : ℚ) + R * cc) - s.center : ℤ) : ℚ)) ^ 2 +
        (((truncQ ((s.center : ℚ) + R * ss) - s.center : ℤ) : ℚ)) ^ 2 <
        ((s.max_radius : ℚ)) ^ 2 := by
      exact_mod_cast hd
    have hR5 : R - 5 = (s.max_radius : ℚ) := by
      rw [hRdef]
      ring
    rw [hR5] at hfar
    linarith
  · simpa using hocc

theorem commit_fold_grid_other (c : ℤ) (l : List (ℤ × ℤ)) :
    ∀ (st : GState) (x y : ℤ), (∀ q ∈ l, ¬(x = q.1 ∧ y = q.2)) →
      (l.foldl (commitOne c) st).grid x y = st.grid x y := by
  induction l with
  | nil => intro st x y _; rfl
  | cons q rest ih =>
    intro st x y h
    have hq := h q (List.mem_cons_self q rest)
    have hrest : ∀ r ∈ rest, ¬(x = r.1 ∧ y = r.2) :=
      fun r hr => h r (List.mem_cons_of_mem q hr)
    show (rest.foldl (commitOne c) (commitOne c st q)).grid x y = st.grid x y
    rw [ih (commitOne c st q) x y hrest]
    unfold commitOne
    by_cases hg : st.grid q.1 q.2
    · simp [hg]
    · simp only [hg, Bool.false_eq_true, if_false]
      unfold setCell
      rw [if_neg hq]

/-! ### Least-squares line-fit lemmas -/

theorem list_sum_affine (l : List (ℝ × ℝ)) (a b : ℝ) :
    (l.map (fun q => q.2 - (a * q.1 + b))).sum =
      (l.map Prod.snd).sum - a * (l.map Prod.fst).sum - l.length * b := by
  induction l with
  | nil => simp
  | cons q rest ih =>
    simp only [List.map_cons, List.sum_cons, List.length_cons, ih]
    push_cast
    ring

theorem list_sum_affine_x (l : List (ℝ × ℝ)) (a b : ℝ) :
    (l.map (fun q => q.1 * (q.2 - (a * q.1 + b)))).sum =
      (l.map (fun q => q.1 * q.2)).sum - a * (l.map (fun q => q.1 ^ 2)).sum -
        b * (l.map Prod.fst).sum := by
  induction l with
  | nil => simp
  | cons q rest ih =>
    simp only [List.map_cons, List.sum_cons, ih]
    ring

theorem sse_decomp (l : List (ℝ × ℝ)) (A B a b : ℝ) :
    sse l a b = sse l A B +
      2 * (A - a) * (l.map (fun q => q.1 * (q.2 - (A * q.1 + B)))).sum +
      2 * (B - b) * (l.map (fun q => q.2 - (A * q.1 + B))).sum +
      (l.map (fun q => ((A - a) * q.1 + (B - b)) ^ 2)).sum := by
  induction l with
  | nil => simp [sse]
  | cons q rest ih =>
    simp only [sse, List.map_cons, List.sum_cons] at ih ⊢
    nlinarith [ih]

theorem list_sum_sq_nonneg (l : List (ℝ × ℝ)) (c d : ℝ) :
    0 ≤ (l.map (fun q => (c * q.1 + d) ^ 2)).sum := by
  induction l with
  | nil => simp
  | cons q rest ih =>
    simp only [List.map_cons, List.sum_cons]
    nlinarith [sq_nonneg (c * q.1 + d)]

theorem list_sum_sub_sq (x : ℝ) (l : List ℝ) :
    (l.map (fun t => (x - t) ^ 2)).sum =
      l.length * x ^ 2 - 2 * x * l.sum + (l.map (fun t => t ^ 2)).sum := by
  induction l with
  | nil => simp
  | cons t rest ih =>
    simp only [List.map_cons, List.sum_cons, List.length_cons, ih]
    push_cast
    ring

theorem list_sum_sub_sq_nonneg (x : ℝ) :
    ∀ l : List ℝ, 0 ≤ (l.map (fun t => (x - t) ^ 2)).sum := by
  intro l
  induction l with
  | nil => simp
  | cons r rr ih =>
    simp only [List.map_cons, List.sum_cons]
    nlinarith [sq_nonneg (x - r), ih]

theorem dlist_cons (x : ℝ) (l : List ℝ) :
    (((x :: l).length : ℝ) * ((x :: l).map (fun t => t ^ 2)).sum -
      ((x :: l).sum) ^ 2) =
    ((l.length : ℝ) * (l.map (fun t => t ^ 2)).sum - (l.sum) ^ 2) +
      (l.map (fun t => (x - t) ^ 2)).sum := by
  rw [list_sum_sub_sq]
  simp only [List.map_cons, List.sum_cons, List.length_cons]
  push_cast
  ring

theorem dlist_nonneg (l : List ℝ) :
    0 ≤ (l.length : ℝ) * (l.map (fun t => t ^ 2)).sum - (l.sum) ^ 2 := by
  induction l with
  | nil => simp
  | cons x rest ih =>
    rw [dlist_cons]
    have h2 := list_sum_sub_sq_nonneg x rest
    linarith

theorem dlist_pos (x y : ℝ) (l : List ℝ) (hxy : x ≠ y) :
    0 < ((x :: y :: l).length : ℝ) *
      ((x :: y :: l).map (fun t => t ^ 2)).sum - ((x :: y :: l).sum) ^ 2 := by
  rw [dlist_cons]
  have h1 := dlist_nonneg (y :: l)
  have h2 : ((y :: l).map (fun t => (x - t) ^ 2)).sum =
      (x - y) ^ 2 + (l.map (fun t => (x - t) ^ 2)).sum := by
    simp
  have h3 := list_sum_sub_sq_nonneg x l
  have h4 : 0 < (x - y) ^ 2 := by
    have h5 : x - y ≠ 0 := sub_ne_zero.mpr hxy
    positivity
  rw [h2]
  linarith

theorem polyfitSlope_least_squares (l : List (ℝ × ℝ)) (hn : 2 ≤ l.length)
    (hD : (l.length : ℝ) * (l.map (fun q => q.1 ^ 2)).sum -
      ((l.map Prod.fst).sum) ^ 2 ≠ 0) :
    ∃ B : ℝ, ∀ a b : ℝ, sse l (polyfitSlope l) B ≤ sse l a b := by
  have hn0 : (l.length : ℝ) ≠ 0 := by
    have h2 : (2 : ℝ) ≤ (l.length : ℝ) := by exact_mod_cast hn
    linarith
  set n : ℝ := (l.length : ℝ) with hndef
  set S1 : ℝ := (l.map Prod.fst).sum with hS1
  set S2 : ℝ := (l.map (fun q => q.1 ^ 2)).sum with hS2
  set Sy : ℝ := (l.map Prod.snd).sum with hSy
  set Sxy : ℝ := (l.map (fun q => q.1 * q.2)).sum with hSxy
  set A : ℝ := polyfitSlope l with hA
  have hAval : A = (n * Sxy - S1 * Sy) / (n * S2 - S1 ^ 2) := by
    rw [hA]
    unfold polyfitSlope
    rfl
  refine ⟨(Sy - A * S1) / n, ?_⟩
  intro a b
  set B : ℝ := (Sy - A * S1) / n with hB
  have hNE1 : (l.map (fun q => q.2 - (A * q.1 + B))).sum = 0 := by
    rw [list_sum_affine, hB]
    field_simp
  have hNE2 : (l.map (fun q => q.1 * (q.2 - (A * q.1 + B)))).sum = 0 := by
    rw [list_sum_affine_x, hB, hAval]
    field_simp
    ring
  rw [sse_decomp l A B a b, hNE1, hNE2]
  have hsq := list_sum_sq_nonneg l (A - a) (B - b)
  linarith

theorem boxSizesFrom_two (minB maxB : ℕ)
    (h : 2 ≤ (boxSizesFrom minB maxB).length) :
    ∃ rest, boxSizesFrom minB maxB = minB :: 2 * minB :: rest ∧
      1 ≤ minB := by
  by_cases h1 : 1 ≤ minB ∧ minB ≤ maxB
  · rw [boxSizesFrom, dif_pos h1] at h ⊢
    simp only [List.length_cons] at h
    have h2 : 1 ≤ (boxSizesFrom (2 * minB) maxB).length := by omega
    by_cases h3 : 1 ≤ 2 * minB ∧ 2 * minB ≤ maxB
    · rw [boxSizesFrom, dif_pos h3]
      exact ⟨_, rfl, h1.1⟩
    · rw [boxSizesFrom, dif_neg h3] at h2
      simp at h2
  · rw [boxSizesFrom, dif_neg h1] at h
    simp at h

/-- `round (Real.sqrt 8) = 3`: the Euclidean distance `√8 ≈ 2.828` of the
cell `(12,12)` from the center `(10,10)` rounds to `3`. -/
theorem round_sqrt_eight : round (Real.sqrt 8) = 3 := by
  have h1 : (5 / 2 : ℝ) ≤ Real.sqrt 8 := by
    rw [show (5 / 2 : ℝ) = Real.sqrt ((5 / 2) ^ 2) by
      rw [Real.sqrt_sq (by norm_num)]]
    exact Real.sqrt_le_sqrt (by norm_num)
  have h2 : Real.sqrt 8 < 7 / 2 := by
    have := Real.sqrt_lt_sqrt (by norm_num : (0:ℝ) ≤ 8)
      (by norm_num : (8:ℝ) < (7 / 2) ^ 2)
    rwa [Real.sqrt_sq (by norm_num)] at this
  rw [round_eq]
  have : (3 : ℤ) ≤ ⌊Real.sqrt 8 + 1 / 2⌋ := by
    apply Int.le_floor.mpr
    push_cast
    linarith
  have h4 : ⌊Real.sqrt 8 + 1 / 2⌋ < 4 := by
    apply Int.floor_lt.mpr
    push_cast
    linarith
  omega

/-! ## Claims -/

/-- C1, counterexample.  The source draws every random value from the
ambient process-global `np.random` state and `DLASimulation.__init__` takes
no seed: two simulations constructed with identical parameters
(`grid_size = 15`, `batch_size = 1`) in the same process necessarily
consume *different* positions of the one shared stream.  Driving both with
the same single call `step(1.0, 6)` yields `grid[8][7] = 1` and
`particles_added = 2` for the first simulation but `grid[8][7] = 0` and
`particles_added = 1` for the second: the snapshots are not bit-identical,
refuting the claim that each simulation owns its random source. -/
theorem c1_counterexample :
    c1RunA.1.grid 8 7 = true ∧ c1RunB.1.grid 8 7 = false ∧
    c1RunA.1.particles_added = 2 ∧ c1RunB.1.particles_added = 1 ∧
    c1SimA.1.grid_size = c1SimB.1.grid_size ∧
    c1SimA.1.batch_size = c1SimB.1.batch_size := by
  decide

/-- C1, amended: determinism holds only relative to the state of the
*global* random stream.  If the global `np.random` state is identical when
each simulation is constructed and driven (e.g. by reseeding the global
generator), the same sequence of `step` calls produces bit-identical
grids, `particles_added` and `max_radius`. -/
theorem c1_determinism_wrt_global_rng (gs bs : ℕ) (r1 r2 : Rng)
    (calls : List (ℚ × ℕ)) (h : r1 = r2) :
    (runCalls (initSim gs bs r1) calls).1.grid =
      (runCalls (initSim gs bs r2) calls).1.grid ∧
    (runCalls (initSim gs bs r1) calls).1.particles_added =
      (runCalls (initSim gs bs r2) calls).1.particles_added ∧
    (runCalls (initSim gs bs r1) calls).1.max_radius =
      (runCalls (initSim gs bs r2) calls).1.max_radius := by
  subst h
  exact ⟨rfl, rfl, rfl⟩

/-- Witness for `c1_determinism_wrt_global_rng` at a concrete input. -/
theorem c1_determinism_witness :
    (runCalls (initSim 15 1 rngC1) [(1, 6)]).1.grid =
      (runCalls (initSim 15 1 rngC1) [(1, 6)]).1.grid ∧
    (runCalls (initSim 15 1 rngC1) [(1, 6)]).1.particles_added =
      (runCalls (initSim 15 1 rngC1) [(1, 6)]).1.particles_added ∧
    (runCalls (initSim 15 1 rngC1) [(1, 6)]).1.max_radius =
      (runCalls (initSim 15 1 rngC1) [(1, 6)]).1.max_radius :=
  c1_determinism_wrt_global_rng 15 1 rngC1 rngC1 [(1, 6)] rfl

/-- C2, counterexample.  On a `15`-grid with `batch_size = 1` the walker
spawns at `(13, 7)` active; the single micro-step of `step(1.0, 1)` moves
it to `(14, 7)`, the bounds check deactivates it, and the early exit
(`continue`) then skips the respawn of step 9 as well: the micro-step ends
with the walker still at `(14, 7)` and inactive, so the batch does *not*
end the micro-step with `batch_size` active walkers. -/
theorem c2_counterexample :
    (initSim 15 1 rngC2).1.walkers = [⟨13, 7, true⟩] ∧
    c2Run.1.walkers = [⟨14, 7, false⟩] := by
  decide

/-- C2, amended: in every micro-step in which at least one walker is still
active after the escape and bounds checks (steps 3–4), every walker
deactivated during the micro-step is respawned before it ends, so the
micro-step ends with all `batch_size` walkers active.  (When *no* walker
survives steps 3–4, the `continue` skips the respawn as well and the batch
is only replenished by the fresh-spawn guard of the next micro-step.) -/
theorem c2_respawn_restores_batch (s : Sim) (rng : Rng) (p : ℚ) (k : ℤ)
    (added : ℕ) (hlen : s.walkers.length = s.batch_size)
    (h : anyActive (killPhase
      (movePhase (spawnGuard s rng).1 (spawnGuard s rng).2).1 k) = true) :
    (microStep p k s rng added).1.walkers.all (·.active) = true ∧
    (microStep p k s rng added).1.walkers.length = s.batch_size := by
  have hms : microStep p k s rng added =
      resolvePhase
        (killPhase (movePhase (spawnGuard s rng).1 (spawnGuard s rng).2).1 k)
        (movePhase (spawnGuard s rng).1 (spawnGuard s rng).2).2 p added := by
    unfold microStep
    simp only [h, if_true]
  rw [hms]
  set s2 := killPhase (movePhase (spawnGuard s rng).1 (spawnGuard s rng).2).1 k
    with hs2
  have hs2len : s2.walkers.length = s.batch_size := by
    rw [hs2, killPhase_length, movePhase_length,
      spawnGuard_walkers_length s rng hlen]
  unfold resolvePhase
  constructor
  · rw [List.all_eq_true]
    intro w hw
    exact respawnList_active _ _ _ _ _ w hw
  · show (respawnList _ _ _ (deactivatePhase _ _) _).1.length = s.batch_size
    rw [respawnList_length, deactivatePhase_length]
    show min s2.walkers.length (stickRow _ _ _ _ _ s2.walkers).length =
      s.batch_size
    rw [stickRow_length, hs2len, min_self]

/-- Witness for `c2_respawn_restores_batch` at a concrete input. -/
theorem c2_respawn_restores_batch_witness :
    (initSim 21 1 rngC2W).1.walkers.length =
      (initSim 21 1 rngC2W).1.batch_size ∧
    anyActive (killPhase
      (movePhase (spawnGuard (initSim 21 1 rngC2W).1 (initSim 21 1 rngC2W).2).1
        (spawnGuard (initSim 21 1 rngC2W).1 (initSim 21 1 rngC2W).2).2).1
      2601) = true ∧
    ((microStep 1 2601 (initSim 21 1 rngC2W).1 (initSim 21 1 rngC2W).2
        0).1.walkers.all (·.active) = true ∧
      (microStep 1 2601 (initSim 21 1 rngC2W).1 (initSim 21 1 rngC2W).2
        0).1.walkers.length = (initSim 21 1 rngC2W).1.batch_size) :=
  ⟨by decide, by decide,
    c2_respawn_restores_batch (initSim 21 1 rngC2W).1 (initSim 21 1 rngC2W).2
      1 2601 0 (by decide) (by decide)⟩

/-- C5, counterexample.  Repeatedly stepping a `21`-grid with
`sticking_probability = 1` grows `max_radius` to `6`, at which point the
saturation condition of the claim (`max_radius + 5 ≥ side / 2`) holds; yet
the engine performs no check: `step` returns normally (5 particles added)
and the final respawn has already placed a walker at `(21, 10)` — outside
the `[0, 21)` grid — silently. -/
theorem c5_counterexample :
    c5Run.1.max_radius = 6 ∧
    (c5Run.1.grid_size : ℚ) / 2 ≤ (c5Run.1.max_radius : ℚ) + 5 ∧
    c5Run.1.walkers = [⟨21, 10, true⟩] ∧
    c5Run.1.grid_size = 21 ∧ c5Run.2.2 = 5 := by
  decide

/-- C5, amended: the engine performs no saturation detection at all — no
`GridSaturated` condition exists and spawns silently go out of bounds (see
the counterexample).  What does hold: no out-of-bounds grid write can
result, because a micro-step only ever writes interior cells (cells outside
the interior box are never modified), and any walker outside the grid is
deactivated by the bounds check of steps 3–4 before the neighbor test or
any commit. -/
theorem c5_no_saturation_check (s : Sim) (rng : Rng) (p : ℚ) (k : ℤ)
    (added : ℕ) :
    (∀ x y : ℤ,
      ¬(1 ≤ x ∧ x < (s.grid_size : ℤ) - 1 ∧
        1 ≤ y ∧ y < (s.grid_size : ℤ) - 1) →
      (microStep p k s rng added).1.grid x y = s.grid x y) ∧
    (∀ w ∈ (killPhase
        (movePhase (spawnGuard s rng).1 (spawnGuard s rng).2).1 k).walkers,
      (w.x < 0 ∨ (s.grid_size : ℤ) ≤ w.x ∨ w.y < 0 ∨
        (s.grid_size : ℤ) ≤ w.y) →
      w.active = false) := by
  constructor
  · intro x y hxy
    unfold microStep
    set g := spawnGuard s rng with hgdef
    set mv := movePhase g.1 g.2 with hmvdef
    set s2 := killPhase mv.1 k with hs2def
    have hgr2 : s2.grid = s.grid := by
      show g.1.grid = s.grid
      exact spawnGuard_grid s rng
    by_cases h2 : anyActive s2
    · simp only [h2, if_true]
      set tg := stickTargets s2.walkers (stickMask s2 mv.2 p).1 with htgdef
      have hgrr : (resolvePhase s2 mv.2 p added).1.grid =
          (tg.foldl (commitOne s2.center)
            ⟨s2.grid, s2.particles_added, s2.max_radius, added⟩).grid := rfl
      rw [hgrr]
      have htint := stickTargets_killPhase_interior mv.1 k mv.2 p
      have hnot : ∀ q ∈ tg, ¬(x = q.1 ∧ y = q.2) := by
        intro q hq hcon
        have hi := htint q hq
        have hgs : mv.1.grid_size = s.grid_size := by
          rw [hmvdef, movePhase_grid_size, spawnGuard_grid_size]
        rw [hgs] at hi
        rw [hcon.1, hcon.2] at hxy
        exact hxy ⟨hi.1, hi.2.1, hi.2.2.1, hi.2.2.2⟩
      rw [commit_fold_grid_other s2.center tg _ x y hnot]
      show s2.grid x y = s.grid x y
      rw [hgr2]
    · have h3 : anyActive s2 = false := by simpa using h2
      simp only [h3, Bool.false_eq_true, if_false]
      show s2.grid x y = s.grid x y
      rw [hgr2]
  · intro w hw hout
    simp only [killPhase, List.mem_map] at hw
    obtain ⟨w0, hw0, rfl⟩ := hw
    have hoob : outOfBoundsW
        (movePhase (spawnGuard s rng).1 (spawnGuard s rng).2).1.grid_size
        w0 = true := by
      have hgs : (movePhase (spawnGuard s rng).1
          (spawnGuard s rng).2).1.grid_size = s.grid_size := by
        rw [movePhase_grid_size, spawnGuard_grid_size]
      rw [hgs]
      unfold outOfBoundsW
      dsimp only at hout
      rcases hout with h | h | h | h
      · simp only [Bool.or_eq_true, decide_eq_true_eq]
        left; left; left
        omega
      · simp only [Bool.or_eq_true, decide_eq_true_eq]
        left; left; right
        omega
      · simp only [Bool.or_eq_true, decide_eq_true_eq]
        left; right
        omega
      · simp only [Bool.or_eq_true, decide_eq_true_eq]
        right
        omega
    dsimp only
    rw [hoob]
    simp

/-- Witness for `c5_no_saturation_check` at a concrete input: the cell
`(0,0)` is untouched by a micro-step, and the far-out walker of
`c5WState` is inactive after the kill phase. -/
theorem c5_no_saturation_check_witness :
    ¬(1 ≤ (0 : ℤ) ∧ (0 : ℤ) < (c5WState.grid_size : ℤ) - 1 ∧
      1 ≤ (0 : ℤ) ∧ (0 : ℤ) < (c5WState.grid_size : ℤ) - 1) ∧
    (microStep 1 2601 c5WState rngC5W 0).1.grid 0 0 = c5WState.grid 0 0 ∧
    (⟨29, 10, false⟩ : Walker) ∈ (killPhase
      (movePhase (spawnGuard c5WState rngC5W).1
        (spawnGuard c5WState rngC5W).2).1 2601).walkers ∧
    ((29 : ℤ) < 0 ∨ (c5WState.grid_size : ℤ) ≤ 29 ∨ (10 : ℤ) < 0 ∨
      (c5WState.grid_size : ℤ) ≤ 10) ∧
    (⟨29, 10, false⟩ : Walker).active = false :=
  ⟨by decide,
   (c5_no_saturation_check c5WState rngC5W 1 2601 0).1 0 0 (by decide),
   by decide, by decide,
   (c5_no_saturation_check c5WState rngC5W 1 2601 0).2 ⟨29, 10, false⟩
     (by decide) (by decide)⟩

/-- C6, counterexample.  In the C6 scenario a walker sticks at `(12, 12)`,
squared distance `8` from the center `(10, 10)`, while `max_radius = 3`.
The code computes `int(np.sqrt(8)) = 2` (truncation) and leaves
`max_radius = max 3 (2+1) = 3`; the claim's rounded distance gives
`round √8 = 3`, hence `max 3 (3+1) = 4 ≠ 3`. -/
theorem c6_counterexample :
    c6Run25.grid 12 12 = false ∧ c6Run25.max_radius = 3 ∧
    ((12 - c6Run25.center) ^ 2 + (12 - c6Run25.center) ^ 2 : ℤ) = 8 ∧
    c6Run26.grid 12 12 = true ∧
    c6Run26.particles_added = c6Run25.particles_added + 1 ∧
    c6Run26.max_radius = 3 ∧
    max (3 : ℤ) (round (Real.sqrt 8) + 1) = 4 := by
  refine ⟨by decide, by decide, by decide, by decide, by decide, by decide, ?_⟩
  rw [round_sqrt_eight]
  decide

/-- C3, confirmed.  If two walkers `i ≠ j` of the same micro-step both have
their stick bit set and target the same unoccupied cell `(x, y)`, then
after steps 8–9: the cell is occupied; the newly-stuck count returned for
the micro-step and `particles_added` both grow by the number of *distinct*
freshly occupied cells (a `Finset` card, so `(x, y)` — a member of that
`Finset` — contributes exactly 1, not 2); both walkers are deactivated by
the post-commit mask and the batch ends fully active (both respawned). -/
theorem c3_tie_resolves_to_single_occupation
    (s2 : Sim) (rng : Rng) (p : ℚ) (added i j : ℕ) (wi wj : Walker)
    (x y : ℤ)
    (hmi : (s2.walkers.zip (stickMask s2 rng p).1)[i]? = some (wi, true))
    (hmj : (s2.walkers.zip (stickMask s2 rng p).1)[j]? = some (wj, true))
    (hij : i ≠ j)
    (hwi : wi.x = x ∧ wi.y = y) (hwj : wj.x = x ∧ wj.y = y)
    (hun : s2.grid x y = false) :
    (resolvePhase s2 rng p added).1.grid x y = true ∧
    (x, y) ∈ (stickTargets s2.walkers (stickMask s2 rng p).1).toFinset.filter
      (fun q => s2.grid q.1 q.2 = false) ∧
    (resolvePhase s2 rng p added).2.2 = added +
      ((stickTargets s2.walkers (stickMask s2 rng p).1).toFinset.filter
        (fun q => s2.grid q.1 q.2 = false)).card ∧
    (resolvePhase s2 rng p added).1.particles_added = s2.particles_added +
      ((stickTargets s2.walkers (stickMask s2 rng p).1).toFinset.filter
        (fun q => s2.grid q.1 q.2 = false)).card ∧
    ((deactivatePhase s2.walkers (stickMask s2 rng p).1)[i]?.map
      (·.active)) = some false ∧
    ((deactivatePhase s2.walkers (stickMask s2 rng p).1)[j]?.map
      (·.active)) = some false ∧
    (resolvePhase s2 rng p added).1.walkers.all (·.active) = true := by
  set mask := (stickMask s2 rng p).1 with hmask
  have hmemI : (wi, true) ∈ s2.walkers.zip mask := List.getElem?_mem hmi
  have htgtI : (x, y) ∈ stickTargets s2.walkers mask := by
    unfold stickTargets
    apply List.mem_map.mpr
    refine ⟨(wi, true), ?_, by simp [hwi.1, hwi.2]⟩
    apply List.mem_filter.mpr
    exact ⟨hmemI, by simp⟩
  have hfold_added := commit_fold_added s2.center
    (stickTargets s2.walkers mask)
    ⟨s2.grid, s2.particles_added, s2.max_radius, added⟩
  have hfold_pa := commit_fold_pa s2.center (stickTargets s2.walkers mask)
    ⟨s2.grid, s2.particles_added, s2.max_radius, added⟩
  have hfold_grid := commit_fold_mem_grid s2.center
    (stickTargets s2.walkers mask)
    ⟨s2.grid, s2.particles_added, s2.max_radius, added⟩ (x, y) htgtI
  refine ⟨hfold_grid, Finset.mem_filter.mpr ⟨List.mem_toFinset.mpr htgtI, hun⟩,
    hfold_added, ?_, ?_, ?_, ?_⟩
  · have hpa_eq : (resolvePhase s2 rng p added).1.particles_added =
        ((stickTargets s2.walkers mask).foldl (commitOne s2.center)
          ⟨s2.grid, s2.particles_added, s2.max_radius,
            added⟩).particles_added := rfl
    rw [hpa_eq]
    dsimp only at hfold_pa hfold_added
    omega
  · unfold deactivatePhase
    rw [List.getElem?_map, hmi]
    simp
  · unfold deactivatePhase
    rw [List.getElem?_map, hmj]
    simp
  · rw [List.all_eq_true]
    intro w hw
    exact respawnList_active _ _ _ _ _ w hw

/-- Witness for `c3_tie_resolves_to_single_occupation` at a concrete
input: the two walkers of `c3State` both stick to the empty cell `(8, 7)`
next to the seed. -/
theorem c3_tie_witness :
    (resolvePhase c3State rngC3W 1 0).1.grid 8 7 = true ∧
    ((8 : ℤ), (7 : ℤ)) ∈
      (stickTargets c3State.walkers
        (stickMask c3State rngC3W 1).1).toFinset.filter
        (fun q => c3State.grid q.1 q.2 = false) ∧
    (resolvePhase c3State rngC3W 1 0).2.2 = 0 +
      ((stickTargets c3State.walkers
        (stickMask c3State rngC3W 1).1).toFinset.filter
        (fun q => c3State.grid q.1 q.2 = false)).card ∧
    (resolvePhase c3State rngC3W 1 0).1.particles_added =
      c3State.particles_added +
      ((stickTargets c3State.walkers
        (stickMask c3State rngC3W 1).1).toFinset.filter
        (fun q => c3State.grid q.1 q.2 = false)).card ∧
    ((deactivatePhase c3State.walkers
      (stickMask c3State rngC3W 1).1)[0]?.map (·.active)) = some false ∧
    ((deactivatePhase c3State.walkers
      (stickMask c3State rngC3W 1).1)[1]?.map (·.active)) = some false ∧
    (resolvePhase c3State rngC3W 1 0).1.walkers.all (·.active) = true :=
  c3_tie_resolves_to_single_occupation c3State rngC3W 1 0 0 1
    ⟨8, 7, true⟩ ⟨8, 7, true⟩ 8 7 (by decide) (by decide) (by decide)
    (by decide) (by decide) (by decide)

/-- C4, confirmed.  In every micro-step, walkers surviving steps 3–4 are
exactly the active ones, and they sit in the interior box `[1, side-2]²`;
hence (i) each of the four axis-aligned neighbor probes of every walker
participating in the neighbor test touches in-bounds coordinates (the
`np.clip` in the source is the identity there), (ii) every stick target
committed in step 8 is in the interior, and (iii) running the whole `step`
call with the spec's bounds-checked `occupy` never returns the
`OutOfBounds` failure and agrees with the unchecked code. -/
theorem c4_bounds_safety (s : Sim) (rng : Rng) (p : ℚ) (k : ℤ) (n : ℕ) :
    (∀ w ∈ (killPhase
        (movePhase (spawnGuard s rng).1 (spawnGuard s rng).2).1 k).walkers,
      w.active = true →
      ∀ i : Fin 4,
        clip (w.x + (neighborOffsets i).1) 0 ((s.grid_size : ℤ) - 1) =
          w.x + (neighborOffsets i).1 ∧
        0 ≤ w.x + (neighborOffsets i).1 ∧
        w.x + (neighborOffsets i).1 < (s.grid_size : ℤ) ∧
        clip (w.y + (neighborOffsets i).2) 0 ((s.grid_size : ℤ) - 1) =
          w.y + (neighborOffsets i).2 ∧
        0 ≤ w.y + (neighborOffsets i).2 ∧
        w.y + (neighborOffsets i).2 < (s.grid_size : ℤ)) ∧
    (∀ q ∈ microTargets s rng p k,
      1 ≤ q.1 ∧ q.1 < (s.grid_size : ℤ) - 1 ∧
      1 ≤ q.2 ∧ q.2 < (s.grid_size : ℤ) - 1) ∧
    stepChecked s rng p n = some (step s rng p n) := by
  refine ⟨?_, microTargets_interior s rng p k,
    stepLoopChecked_eq p (((s.max_radius : ℤ) + 50) ^ 2) n s rng 0⟩
  intro w hw hact i
  have hint := killPhase_active_interior _ k w hw hact
  rw [movePhase_grid_size, spawnGuard_grid_size] at hint
  have hclip : ∀ v : ℤ, 0 ≤ v → v ≤ (s.grid_size : ℤ) - 1 →
      clip v 0 ((s.grid_size : ℤ) - 1) = v := by
    intro v h1 h2
    unfold clip
    omega
  fin_cases i <;>
    simp only [neighborOffsets] <;>
    exact ⟨hclip _ (by omega) (by omega), by omega, by omega,
      hclip _ (by omega) (by omega), by omega, by omega⟩

/-- Witness for `c4_bounds_safety` at a concrete input. -/
theorem c4_bounds_safety_witness :
    stepChecked (initSim 21 1 rngC4W).1 (initSim 21 1 rngC4W).2 1 3 =
      some (step (initSim 21 1 rngC4W).1 (initSim 21 1 rngC4W).2 1 3) :=
  (c4_bounds_safety (initSim 21 1 rngC4W).1 (initSim 21 1 rngC4W).2 1
    2601 3).2.2

/-- C7, amended (the claim's "rounded to the nearest integer" corrected to
truncation toward zero, the semantics of `.astype(np.int32)`).  Every
reachable state satisfies the radius invariant (all occupied cells lie
strictly inside the `max_radius` circle) with `max_radius ≥ 1`; the
invariant is preserved by every micro-step; the batch spawn places walker
`j` exactly at `center + (max_radius + 5)·(cos θ, sin θ)` truncated
coordinatewise; and at any invariant state the spawn target is never an
already-occupied cell. -/
theorem c7_spawn_rule :
    (∀ (gs bs : ℕ) (rng : Rng) (calls : List (ℚ × ℕ)),
      RadiusInv (runCalls (initSim gs bs rng) calls).1 ∧
      1 ≤ (runCalls (initSim gs bs rng) calls).1.max_radius) ∧
    (∀ (p : ℚ) (k : ℤ) (s : Sim) (rng : Rng) (added : ℕ),
      RadiusInv s → RadiusInv (microStep p k s rng added).1) ∧
    (∀ (s : Sim) (rng : Rng),
      (spawnWalkers s rng).1.walkers = (List.range s.batch_size).map (fun j =>
        Walker.mk
          (spawnPos s.center ((s.max_radius : ℚ) + 5)
            (rng.angles (rng.aPos + j))).1
          (spawnPos s.center ((s.max_radius : ℚ) + 5)
            (rng.angles (rng.aPos + j))).2 true)) ∧
    (∀ s : Sim, RadiusInv s → 1 ≤ s.max_radius →
      ∀ cc ss : ℚ, cc ^ 2 + ss ^ 2 = 1 →
        spawnPos s.center ((s.max_radius : ℚ) + 5) (cc, ss) =
          (truncQ ((s.center : ℚ) + ((s.max_radius : ℚ) + 5) * cc),
           truncQ ((s.center : ℚ) + ((s.max_radius : ℚ) + 5) * ss)) ∧
        s.grid (spawnPos s.center ((s.max_radius : ℚ) + 5) (cc, ss)).1
          (spawnPos s.center ((s.max_radius : ℚ) + 5) (cc, ss)).2 =
          false) := by
  refine ⟨?_, ?_, ?_, ?_⟩
  · intro gs bs rng calls
    constructor
    · exact runCalls_radiusInv calls _ (initSim_radiusInv gs bs rng)
    · have hmono := (runCalls_preserves calls (initSim gs bs rng)).2.2.1
      have hmr0 : (initSim gs bs rng).1.max_radius = 1 := rfl
      omega
  · intro p k s rng added h
    exact microStep_radiusInv p k s rng added h
  · intro s rng
    rfl
  · intro s hinv hmr cc ss hunit
    exact ⟨rfl, spawn_target_unoccupied s hinv hmr cc ss hunit⟩

/-- Witness for `c7_spawn_rule` at a concrete input. -/
theorem c7_spawn_rule_witness :
    ((3 : ℚ) / 5) ^ 2 + ((4 : ℚ) / 5) ^ 2 = 1 ∧
    (initSim 21 1 rngC7).1.grid
      (spawnPos (initSim 21 1 rngC7).1.center
        (((initSim 21 1 rngC7).1.max_radius : ℚ) + 5) (3 / 5, 4 / 5)).1
      (spawnPos (initSim 21 1 rngC7).1.center
        (((initSim 21 1 rngC7).1.max_radius : ℚ) + 5) (3 / 5, 4 / 5)).2 =
      false :=
  ⟨by norm_num,
   (c7_spawn_rule.2.2.2 (initSim 21 1 rngC7).1
     (initSim_radiusInv 21 1 rngC7) (le_refl 1) (3 / 5) (4 / 5)
     (by norm_num)).2⟩

/-- C8, confirmed.  The center cell `grid[center][center]` is occupied
immediately after construction and after any sequence of `step()` calls
(cells are only ever written `occupied`, never cleared), `max_radius ≥ 1`
always, and the center coordinate stays `side // 2` forever. -/
theorem c8_seed_invariant (gs bs : ℕ) (rng : Rng) (calls : List (ℚ × ℕ)) :
    (runCalls (initSim gs bs rng) calls).1.grid
      (runCalls (initSim gs bs rng) calls).1.center
      (runCalls (initSim gs bs rng) calls).1.center = true ∧
    1 ≤ (runCalls (initSim gs bs rng) calls).1.max_radius ∧
    (runCalls (initSim gs bs rng) calls).1.center = ((gs / 2 : ℕ) : ℤ) := by
  obtain ⟨h1, h2, h3, h4, h5⟩ := runCalls_preserves calls (initSim gs bs rng)
  have hcen : (initSim gs bs rng).1.center = ((gs / 2 : ℕ) : ℤ) := rfl
  have hgr : (initSim gs bs rng).1.grid = initGrid ((gs / 2 : ℕ) : ℤ) := rfl
  have hmr : (initSim gs bs rng).1.max_radius = 1 := rfl
  refine ⟨?_, ?_, by rw [h1, hcen]⟩
  · rw [h1, hcen]
    apply h5
    rw [hgr]
    simp [initGrid]
  · rw [← hmr]
    exact h3

/-- C10, confirmed.  Immediately after construction and after every
`step()` call, `particles_added` equals the number of occupied cells of
the grid: the counter is incremented exactly when a cell flips from
unoccupied to occupied, writes stay inside the grid, and cells are never
cleared. -/
theorem c10_particles_equal_occupied (gs bs : ℕ) (rng : Rng) (calls : List (ℚ × ℕ))
    (hgs : 1 ≤ gs) :
    gridCount (runCalls (initSim gs bs rng) calls).1.grid
      (runCalls (initSim gs bs rng) calls).1.grid_size =
      (runCalls (initSim gs bs rng) calls).1.particles_added := by
  apply runCalls_gridCount
  have hgrid : (initSim gs bs rng).1.grid = initGrid ((gs / 2 : ℕ) : ℤ) :=
    rfl
  have hgsz : (initSim gs bs rng).1.grid_size = gs := rfl
  have hpa : (initSim gs bs rng).1.particles_added = 1 := rfl
  rw [hgrid, hgsz, hpa]
  have hlt : gs / 2 < gs := Nat.div_lt_self (by omega) (by omega)
  exact gridCount_initGrid gs _ (Int.natCast_nonneg _) (by exact_mod_cast hlt)

/-- Witness for `c10_particles_equal_occupied` at a concrete input. -/
theorem c10_particles_equal_occupied_witness :
    1 ≤ 15 ∧
    gridCount (runCalls (initSim 15 1 rngC10W) [(1, 1)]).1.grid
      (runCalls (initSim 15 1 rngC10W) [(1, 1)]).1.grid_size =
      (runCalls (initSim 15 1 rngC10W) [(1, 1)]).1.particles_added :=
  ⟨by decide, c10_particles_equal_occupied 15 1 rngC10W [(1, 1)] (by decide)⟩

/-- C6, amended (the claim's "rounded to the nearest integer" corrected to
the floor that `int(np.sqrt(...))` computes).  A sticking commit at an
unoccupied cell `(x, y)` occupies it, increments `particles_added` and the
call-scoped count by exactly 1, leaves every other cell unchanged, and sets
`max_radius = max(max_radius, d + 1)` where `d = ⌊√((x-c)² + (y-c)²)⌋` is
the Euclidean distance *truncated* (floored), not rounded; a commit at an
already-occupied cell changes nothing. -/
theorem c6_commit_updates (c : ℤ) (st : GState) (pos : ℤ × ℤ) :
    (st.grid pos.1 pos.2 = false →
      (commitOne c st pos).grid pos.1 pos.2 = true ∧
      (commitOne c st pos).particles_added = st.particles_added + 1 ∧
      (commitOne c st pos).added = st.added + 1 ∧
      (commitOne c st pos).max_radius = max st.max_radius
        (⌊Real.sqrt ((((pos.1 - c) ^ 2 + (pos.2 - c) ^ 2).toNat : ℕ) :
          ℝ)⌋₊ + 1) ∧
      ∀ a b : ℤ, ¬(a = pos.1 ∧ b = pos.2) →
        (commitOne c st pos).grid a b = st.grid a b) ∧
    (st.grid pos.1 pos.2 = true → commitOne c st pos = st) := by
  constructor
  · intro h
    unfold commitOne
    simp only [h, Bool.false_eq_true, if_false]
    refine ⟨by simp [setCell], by dsimp only, by dsimp only, ?_, ?_⟩
    · dsimp only
      rw [natFloor_real_sqrt, intSqrt_eq]
    · intro a b hab
      simp [setCell, hab]
  · intro h
    unfold commitOne
    simp [h]

/-- Witness for `c6_commit_updates`: a fresh commit at `(9, 9)` from the
center `(7, 7)` and a no-op commit at the occupied center. -/
theorem c6_commit_updates_witness :
    (commitOne 7 ⟨initGrid 7, 1, 1, 0⟩ (9, 9)).max_radius =
      max 1 (⌊Real.sqrt (((((9 : ℤ) - 7) ^ 2 + ((9 : ℤ) - 7) ^ 2).toNat :
        ℕ) : ℝ)⌋₊ + 1) ∧
    commitOne 7 ⟨initGrid 7, 1, 1, 0⟩ (7, 7) = ⟨initGrid 7, 1, 1, 0⟩ :=
  ⟨((c6_commit_updates 7 ⟨initGrid 7, 1, 1, 0⟩ (9, 9)).1
      (by decide)).2.2.2.1,
   (c6_commit_updates 7 ⟨initGrid 7, 1, 1, 0⟩ (7, 7)).2 (by decide)⟩

/-- C7, counterexample.  With `max_radius = 1` the spawn radius is `6`; for
the angle with `(cos θ, sin θ) = (3/5, 4/5)` on a `21`-grid the exact spawn
position is `(13.6, 14.8)`.  The source's `.astype(np.int32)` truncates to
`(13, 14)`, but rounding to the nearest integer — as the claim states —
would give `(14, 15)`. -/
theorem c7_counterexample :
    (initSim 21 1 rngC7).1.walkers = [⟨13, 14, true⟩] ∧
    roundQ ((((21 / 2 : ℕ) : ℤ) : ℚ) + (((1 : ℕ) : ℚ) + 5) * (3 / 5)) = 14 ∧
    roundQ ((((21 / 2 : ℕ) : ℤ) : ℚ) + (((1 : ℕ) : ℚ) + 5) * (4 / 5)) = 15 := by
  decide

/-- C9, confirmed.  The estimator returns the fallback `1.71` exactly when
the degenerate test of the source fires (fewer than 2 box sizes, or some
box size yields a zero count); otherwise it returns the slope produced by
`np.polyfit` on the `(log(1/s), log(count))` pairs, and that slope is a
genuine least-squares slope: together with some intercept it minimizes the
sum of squared residuals over all lines.  (`1 ≤ min_box_size` is the
spec's stated domain; the source loops forever on `min_box_size = 0`.
The estimator only reads the snapshot — the embedding is a pure function
of it.) -/
theorem c9_estimator (g : ℤ → ℤ → Bool) (side minB : ℕ) (maxB? : Option ℕ)
    (hmin : 1 ≤ minB) :
    (bcdDegenerate g side minB (maxB?.getD (side / 8)) →
      box_counting_dimension g side minB maxB? = 171 / 100) ∧
    (¬bcdDegenerate g side minB (maxB?.getD (side / 8)) →
      box_counting_dimension g side minB maxB? =
        polyfitSlope (bcdLogPairs g side minB (maxB?.getD (side / 8))) ∧
      ∃ B : ℝ, ∀ a b : ℝ,
        sse (bcdLogPairs g side minB (maxB?.getD (side / 8)))
          (box_counting_dimension g side minB maxB?) B ≤
        sse (bcdLogPairs g side minB (maxB?.getD (side / 8))) a b) := by
  constructor
  · intro h
    unfold box_counting_dimension
    rw [if_pos h]
  · intro h
    have hval : box_counting_dimension g side minB maxB? =
        polyfitSlope (bcdLogPairs g side minB (maxB?.getD (side / 8))) := by
      unfold box_counting_dimension
      rw [if_neg h]
    refine ⟨hval, ?_⟩
    rw [hval]
    set maxB := maxB?.getD (side / 8) with hmb
    have hlen : 2 ≤ (boxSizesFrom minB maxB).length := by
      by_contra hc
      push_neg at hc
      exact h (Or.inl (by omega))
    obtain ⟨rest, hsz, hm1⟩ := boxSizesFrom_two minB maxB hlen
    set l := bcdLogPairs g side minB maxB with hl
    have hlen2 : 2 ≤ l.length := by
      rw [hl]
      unfold bcdLogPairs
      rw [List.length_map]
      exact hlen
    have hxs : l.map Prod.fst =
        Real.log (1 / (minB : ℝ)) ::
        Real.log (1 / ((2 * minB : ℕ) : ℝ)) ::
        rest.map (fun bs : ℕ => Real.log (1 / (bs : ℝ))) := by
      rw [hl]
      unfold bcdLogPairs
      rw [List.map_map, hsz]
      rfl
    have hmpos : (0 : ℝ) < (minB : ℝ) := by exact_mod_cast hm1
    have hlt : (1 : ℝ) / ((2 * minB : ℕ) : ℝ) < 1 / (minB : ℝ) := by
      apply one_div_lt_one_div_of_lt hmpos
      push_cast
      linarith
    have hpos2 : (0 : ℝ) < 1 / ((2 * minB : ℕ) : ℝ) := by
      have hp : (0 : ℝ) < ((2 * minB : ℕ) : ℝ) := by
        push_cast
        linarith
      positivity
    have hloglt : Real.log (1 / ((2 * minB : ℕ) : ℝ)) <
        Real.log (1 / (minB : ℝ)) := Real.log_lt_log hpos2 hlt
    have hne : Real.log (1 / (minB : ℝ)) ≠
        Real.log (1 / ((2 * minB : ℕ) : ℝ)) := ne_of_gt hloglt
    have hD0 := dlist_pos (Real.log (1 / (minB : ℝ)))
      (Real.log (1 / ((2 * minB : ℕ) : ℝ)))
      (rest.map (fun bs : ℕ => Real.log (1 / (bs : ℝ)))) hne
    rw [← hxs] at hD0
    rw [List.length_map, List.map_map] at hD0
    have hD : (l.length : ℝ) * (l.map (fun q => q.1 ^ 2)).sum -
        ((l.map Prod.fst).sum) ^ 2 ≠ 0 := by
      have hconv : l.map ((fun t : ℝ => t ^ 2) ∘ Prod.fst) =
          l.map (fun q => q.1 ^ 2) := rfl
      rw [hconv] at hD0
      exact ne_of_gt hD0
    exact polyfitSlope_least_squares l hlen2 hD

/-- Witness for `c9_estimator`: a degenerate call (default `max_box_size`
on a `3`-grid gives no box sizes) returns `1.71`; a non-degenerate call on
a `9`-grid with `max_box_size = 4` returns the least-squares slope. -/
theorem c9_estimator_witness :
    (1 ≤ 2 ∧ box_counting_dimension (initGrid 1) 3 2 none = 171 / 100) ∧
    (box_counting_dimension (initGrid 4) 9 2 (some 4) =
      polyfitSlope (bcdLogPairs (initGrid 4) 9 2 ((some 4).getD (9 / 8))) ∧
      ∃ B : ℝ, ∀ a b : ℝ,
        sse (bcdLogPairs (initGrid 4) 9 2 ((some 4).getD (9 / 8)))
          (box_counting_dimension (initGrid 4) 9 2 (some 4)) B ≤
        sse (bcdLogPairs (initGrid 4) 9 2 ((some 4).getD (9 / 8))) a b) := by
  have hdeg : bcdDegenerate (initGrid 1) 3 2
      ((none : Option ℕ).getD (3 / 8)) := by
    have hs : boxSizesFrom 2 ((none : Option ℕ).getD (3 / 8)) = [] := by
      rw [boxSizesFrom, dif_neg]
      decide
    exact Or.inl (by rw [hs]; decide)
  have hnon : ¬bcdDegenerate (initGrid 4) 9 2 ((some 4).getD (9 / 8)) := by
    have hs : boxSizesFrom 2 ((some 4).getD (9 / 8)) = [2, 4] := by
      rw [show (some 4).getD (9 / 8) = 4 from rfl]
      rw [boxSizesFrom, dif_pos (by decide : 1 ≤ 2 ∧ 2 ≤ 4),
        boxSizesFrom, dif_pos (by decide : 1 ≤ 2 * 2 ∧ 2 * 2 ≤ 4),
        boxSizesFrom, dif_neg (by decide : ¬(1 ≤ 2 * (2 * 2) ∧
          2 * (2 * 2) ≤ 4))]
    unfold bcdDegenerate
    rw [hs]
    decide
  exact ⟨⟨by decide, (c9_estimator (initGrid 1) 3 2 none (by decide)).1 hdeg⟩,
    (c9_estimator (initGrid 4) 9 2 (some 4) (by decide)).2 hnon⟩

end DLA
